import Mathlib

/-!
Shallow embedding of the cc-dice decision engine.

The model translates the TypeScript sources:
  * src/src/roll.ts          — rollDice / checkTarget / calculateProbability
  * src/src/state.ts         — per-(slot, session) state files
  * src/src/cooldown.ts      — cooldown markers, checkSlot, checkAllSlots, sessionStart
  * src/unnamed/part_000     — accumulator.ts (getAccumulatorDiceCount)
  * src/unnamed/part_001     — registry.ts (SLOT_DEFAULTS, registerSlot)
  * src/unnamed/part_002     — types.ts

Modelling conventions:
  * JavaScript numbers that the code only ever uses as integers are `Int`;
    the probability value (a float rounded to two decimals) is `ℚ`.
  * `Math.random()` draws are modelled by an explicit stream of naturals
    `rng : List Nat`; one die roll of size `d > 0` maps a raw draw `u` to
    `u % d + 1`, which ranges over `[1, d]` exactly as
    `Math.floor(Math.random() * d) + 1` does.  An exhausted stream yields `0`
    draws (the real stream is inexhaustible, and theorems never depend on
    that default).
  * The `state/` directory is one map `String → Option FileContent` keyed by
    file name (the common directory prefix is dropped: `join(dir, x)` is
    injective in `x` for a fixed `dir`).  A state file holds parsed JSON
    (`FileContent.state`), a cooldown marker holds a timestamp string
    (`FileContent.marker`); `loadState` treats a marker body as corrupted
    JSON and falls back to the default state, exactly as the `try/catch` in
    state.ts does.
  * Timestamps (`new Date().toISOString()`) are an abstract clock `now : Int`.
  * `countExchanges(transcriptPath)` and `extractSessionFromPath` are external
    I/O collaborators; a context carries their results directly
    (`TranscriptInfo`), `none` meaning `ctx.transcriptPath` was absent.
  * `config.depthProvider` is a caller-supplied capability returning a depth;
    it is modelled by the depth it would return (`Option Int`).  `registerSlot`
    strips it before persisting, so registry-loaded configs always carry
    `none`; theorems about `checkSlot` / `checkAllSlots` state that as a
    hypothesis.
  * `validateName` is imported by cooldown.ts from registry.ts but its body is
    not among the provided sources; per the spec it only rejects malformed
    names (path traversal, empty, hidden/relative segments) by throwing.  It
    is side-effect free on accepted names and is therefore not modelled; all
    concrete names used in witnesses are plainly valid.
-/

namespace CcDice

/-- targetMode: 'exact' | 'gte' | 'lte' (types.ts). -/
inductive TargetMode
  | exact
  | gte
  | lte
deriving DecidableEq, Repr

/-- type: 'accumulator' | 'fixed' | 'single' (types.ts).  `unknownKind` stands
for any other tag found in a (possibly corrupted) registry document; the
`default` branch of `getDiceCount` handles it. -/
inductive SlotType
  | accumulator
  | fixed
  | single
  | unknownKind
deriving DecidableEq, Repr

/-- cooldown: 'per-session' | 'none' (types.ts). -/
inductive CooldownPolicy
  | perSession
  | noCooldown
deriving DecidableEq, Repr

/-- DiceState (types.ts): the parsed body of a state file. -/
structure DiceState where
  depth_at_last_trigger : Int
  last_reset : Int
deriving DecidableEq, Repr

/-- Contents of one file in the state directory: either a JSON dice-state
document or a cooldown marker (whose body is just a timestamp string). -/
inductive FileContent
  | state (s : DiceState)
  | marker (ts : Int)
deriving DecidableEq, Repr

/-- The state directory: file name ↦ contents. -/
def StoreMap : Type := String → Option FileContent

/-- Result of `countExchanges` / `extractSessionFromPath` on
`ctx.transcriptPath`, when that path is present. -/
structure TranscriptInfo where
  extractedSession : Option String
  exchanges : Int
deriving DecidableEq, Repr

/-- CheckContext (types.ts): `transcriptPath?` and `sessionId?`.  The
transcript path is modelled by what the collaborators would read from it. -/
structure CheckContext where
  sessionId : Option String := none
  transcript : Option TranscriptInfo := none
deriving DecidableEq, Repr

/-- DiceSlotConfig (types.ts). -/
structure DiceSlotConfig where
  name : String
  die : Int
  target : Int
  targetMode : TargetMode
  type : SlotType
  accumulationRate : Int
  maxDice : Int
  fixedCount : Int
  cooldown : CooldownPolicy
  clearOnSessionStart : Bool
  resetOnTrigger : Bool
  onTriggerMessage : String
  depthProvider : Option Int := none
deriving DecidableEq, Repr

/-- DiceResult (types.ts). -/
structure DiceResult where
  triggered : Bool
  rolls : List Int
  best : Int
  diceCount : Int
  probability : ℚ
  slotName : String
deriving DecidableEq, Repr

/-- The `{diceCount, currentDepth, depthSinceTrigger}` record returned by
`getDiceCount` / `getAccumulatorDiceCount`. -/
structure DiceCountResult where
  diceCount : Int
  currentDepth : Int
  depthSinceTrigger : Int
deriving DecidableEq, Repr

/-! ## roll.ts -/

/-- One die face from one raw random draw:
`Math.floor(Math.random() * dieSize) + 1`. -/
def natRoll (dieSize : Int) (u : Nat) : Int :=
  (u : Int) % dieSize + 1

/-- rollDice (roll.ts): `count` independent draws in `[1, dieSize]`;
`count <= 0 || dieSize <= 0` yields the empty list without consuming any
randomness.  Returns the rolls and the remaining stream. -/
def rollDice (count dieSize : Int) (rng : List Nat) : List Int × List Nat :=
  if count ≤ 0 ∨ dieSize ≤ 0 then ([], rng)
  else ((List.range count.toNat).map fun i => natRoll dieSize (rng.getD i 0),
        rng.drop count.toNat)

/-- checkTarget (roll.ts). -/
def checkTarget (rolls : List Int) (target : Int) (mode : TargetMode) : Bool :=
  if rolls.isEmpty then false
  else
    match mode with
    | .exact => rolls.any fun r => r = target
    | .gte => rolls.any fun r => target ≤ r
    | .lte => rolls.any fun r => r ≤ target

/-- `Math.round`: round half toward positive infinity. -/
def jsRound (q : ℚ) : Int :=
  ⌊q + 1 / 2⌋

/-- calculateProbability (roll.ts), with exact rational arithmetic in place of
IEEE doubles:
`Math.round((1 - pMiss ^ count) * 10000) / 100`. -/
def calculateProbability (count dieSize target : Int) (mode : TargetMode) : ℚ :=
  if count ≤ 0 ∨ dieSize ≤ 0 then 0
  else
    let pMiss : ℚ :=
      match mode with
      | .exact => (dieSize - 1 : ℚ) / (dieSize : ℚ)
      | .gte => (target - 1 : ℚ) / (dieSize : ℚ)
      | .lte => ((dieSize : ℚ) - (target : ℚ)) / (dieSize : ℚ)
    let pAllMiss := pMiss ^ count.toNat
    (jsRound ((1 - pAllMiss) * 10000) : ℚ) / 100

/-! ## state.ts and cooldown markers -/

/-- getStateFile (state.ts): `{slotName}-{sessionId}.json` inside the state
directory.  No name validation is performed here. -/
def getStateFile (slotName sessionId : String) : String :=
  slotName ++ "-" ++ sessionId ++ ".json"

/-- getMarkerFile (cooldown.ts): `triggered-{slotName}-{sessionId}`. -/
def getMarkerFile (slotName sessionId : String) : String :=
  "triggered-" ++ slotName ++ "-" ++ sessionId

/-- DEFAULT_DICE_STATE (state.ts); its timestamp is the module-load clock,
fixed at 0 here (no claim observes it). -/
def defaultDiceState : DiceState :=
  { depth_at_last_trigger := 0, last_reset := 0 }

/-- loadState (state.ts): absent or unparsable files fall back to the
default state. -/
def loadState (files : StoreMap) (slotName sessionId : String) : DiceState :=
  match files (getStateFile slotName sessionId) with
  | some (.state s) => s
  | some (.marker _) => defaultDiceState
  | none => defaultDiceState

/-- saveState (state.ts). -/
def saveState (files : StoreMap) (slotName sessionId : String) (st : DiceState) :
    StoreMap :=
  Function.update files (getStateFile slotName sessionId) (some (.state st))

/-- resetState (state.ts): `depth_at_last_trigger := currentDepth` and a fresh
timestamp. -/
def resetState (files : StoreMap) (slotName sessionId : String)
    (currentDepth now : Int) : StoreMap :=
  saveState files slotName sessionId
    { depth_at_last_trigger := currentDepth, last_reset := now }

/-- clearState (state.ts): `depth_at_last_trigger := 0` and a fresh
timestamp. -/
def clearState (files : StoreMap) (slotName sessionId : String) (now : Int) :
    StoreMap :=
  saveState files slotName sessionId { depth_at_last_trigger := 0, last_reset := now }

/-- hasCooldown (cooldown.ts): the marker file exists. -/
def hasCooldown (files : StoreMap) (slotName sessionId : String) : Bool :=
  (files (getMarkerFile slotName sessionId)).isSome

/-- markTriggered (cooldown.ts): write the marker file. -/
def markTriggered (files : StoreMap) (slotName sessionId : String) (now : Int) :
    StoreMap :=
  Function.update files (getMarkerFile slotName sessionId) (some (.marker now))

/-- clearCooldown (cooldown.ts): unlink the marker if it exists. -/
def clearCooldown (files : StoreMap) (slotName sessionId : String) : StoreMap :=
  if hasCooldown files slotName sessionId then
    Function.update files (getMarkerFile slotName sessionId) none
  else files

/-! ## accumulator.ts (src/unnamed/part_000) -/

/-- Depth resolution at the top of `getAccumulatorDiceCount`:
`config.depthProvider` first, then `countExchanges(ctx.transcriptPath)`,
else 0. -/
def resolveDepth (cfg : DiceSlotConfig) (ctx : CheckContext) : Int :=
  match cfg.depthProvider with
  | some d => d
  | none =>
    match ctx.transcript with
    | some t => t.exchanges
    | none => 0

/-- getAccumulatorDiceCount (accumulator.ts).  Calibrates the `-1` sentinel to
the current depth (persisting immediately), then
`diceCount = min(floor(depthSinceTrigger / accumulationRate), maxDice)`.
`Int.fdiv` is floor division, matching `Math.floor(a / b)` for every nonzero
divisor; theorems assume `accumulationRate > 0` (the spec requires a positive
rate; a zero rate makes the JS compute with `NaN`, outside this model). -/
def getAccumulatorDiceCount (cfg : DiceSlotConfig) (sessionId : String)
    (ctx : CheckContext) (files : StoreMap) : DiceCountResult × StoreMap :=
  let currentDepth := resolveDepth cfg ctx
  let state0 := loadState files cfg.name sessionId
  let calibrated :=
    if state0.depth_at_last_trigger < 0 then
      let st := { state0 with depth_at_last_trigger := currentDepth }
      (st, saveState files cfg.name sessionId st)
    else (state0, files)
  let depthSinceTrigger := max 0 (currentDepth - calibrated.1.depth_at_last_trigger)
  let diceCount := min (depthSinceTrigger.fdiv cfg.accumulationRate) cfg.maxDice
  (⟨diceCount, currentDepth, depthSinceTrigger⟩, calibrated.2)

/-- getDiceCount (cooldown.ts, high-level API section): dispatch on the slot
kind; unknown kinds resolve to zero dice. -/
def getDiceCount (cfg : DiceSlotConfig) (sessionId : String) (ctx : CheckContext)
    (files : StoreMap) : DiceCountResult × StoreMap :=
  match cfg.type with
  | .accumulator => getAccumulatorDiceCount cfg sessionId ctx files
  | .fixed => (⟨cfg.fixedCount, 0, 0⟩, files)
  | .single => (⟨1, 0, 0⟩, files)
  | .unknownKind => (⟨0, 0, 0⟩, files)

/-! ## The decision engine (cooldown.ts, high-level API section) -/

/-- The whole mutable world one invocation sees: the registry (the list
`listSlots()` returns, i.e. `Object.values(slots.json)`), the state
directory, the random stream, the clock, and the session id that
`getSessionId()` (env var / project hash) would resolve to. -/
structure Env where
  slots : List DiceSlotConfig
  files : StoreMap
  rng : List Nat
  now : Int
  fallbackSessionId : String

/-- getSlot (registry.ts): look a slot up by name.  `slots.json` is keyed by
`config.name`, so lookup by key is lookup by the stored name field. -/
def getSlot (slots : List DiceSlotConfig) (name : String) : Option DiceSlotConfig :=
  slots.find? fun c => c.name = name

/-- resolveSessionId (cooldown.ts): explicit ctx id, then the session
extracted from the transcript path, then the env/project-hash fallback. -/
def resolveSessionId (fallback : String) (ctx : CheckContext) : String :=
  match ctx.sessionId with
  | some s => s
  | none =>
    match ctx.transcript with
    | some t =>
      match t.extractedSession with
      | some s => s
      | none => fallback
    | none => fallback

/-- The non-triggered, zero-dice outcome. -/
def inertResult (name : String) : DiceResult :=
  { triggered := false, rolls := [], best := 0, diceCount := 0, probability := 0,
    slotName := name }

/-- `Math.max(...rolls)` guarded by `rolls.length > 0 ? ... : 0`. -/
def bestOf : List Int → Int
  | [] => 0
  | x :: xs => xs.foldl max x

/-- The depth used by checkSlot's post-trigger reset (cooldown.ts lines
428-437): `config.depthProvider` first, then the transcript, else 0. -/
def checkSlotResetDepth (cfg : DiceSlotConfig) (ctx : CheckContext) : Int :=
  match cfg.depthProvider with
  | some d => d
  | none =>
    match ctx.transcript with
    | some t => t.exchanges
    | none => 0

/-- checkSlot (cooldown.ts): single-slot evaluation. -/
def checkSlot (name : String) (ctx : CheckContext) (env : Env) : DiceResult × Env :=
  match getSlot env.slots name with
  | none => (inertResult name, env)
  | some cfg =>
    let sessionId := resolveSessionId env.fallbackSessionId ctx
    if cfg.cooldown = CooldownPolicy.perSession ∧
        hasCooldown env.files name sessionId = true then
      (inertResult name, env)
    else
      let dcf := getDiceCount cfg sessionId ctx env.files
      if dcf.1.diceCount ≤ 0 then
        (inertResult name, { env with files := dcf.2 })
      else
        let rr := rollDice dcf.1.diceCount cfg.die env.rng
        let rolls := rr.1
        let best := bestOf rolls
        let triggered := checkTarget rolls cfg.target cfg.targetMode
        let probability := calculateProbability dcf.1.diceCount cfg.die cfg.target cfg.targetMode
        let files1 :=
          if triggered = true ∧ cfg.resetOnTrigger = true ∧ cfg.type = SlotType.accumulator then
            resetState dcf.2 name sessionId (checkSlotResetDepth cfg ctx) env.now
          else dcf.2
        let files2 :=
          if triggered = true ∧ cfg.cooldown = CooldownPolicy.perSession then
            markTriggered files1 name sessionId env.now
          else files1
        ({ triggered := triggered, rolls := rolls, best := best,
           diceCount := dcf.1.diceCount, probability := probability, slotName := name },
         { env with files := files2, rng := rr.2 })

/-- One pre-filtered slot: its config together with the dice count computed
before grouping (checkAllSlots lines 222-234). -/
structure SlotInfo where
  config : DiceSlotConfig
  diceCount : Int
deriving DecidableEq, Repr

/-- The pre-filter loop of checkAllSlots: slots under an active per-session
cooldown produce an immediate inert result; the rest get their dice count
computed (with possible calibration writes) and join the active list. -/
def prefilter (sessionId : String) (ctx : CheckContext) :
    List DiceSlotConfig → StoreMap → List DiceResult × List SlotInfo × StoreMap
  | [], files => ([], [], files)
  | cfg :: rest, files =>
    if cfg.cooldown = CooldownPolicy.perSession ∧
        hasCooldown files cfg.name sessionId = true then
      let t := prefilter sessionId ctx rest files
      (inertResult cfg.name :: t.1, t.2.1, t.2.2)
    else
      let dcf := getDiceCount cfg sessionId ctx files
      let t := prefilter sessionId ctx rest dcf.2
      (t.1, ⟨cfg, dcf.1.diceCount⟩ :: t.2.1, t.2.2)

/-- One insertion into the die-size grouping `Map` (checkAllSlots lines
237-242): push onto the existing group for this die size, else append a new
group at the end — exactly the insertion-order semantics of a JS `Map`. -/
def addToGroups : List (Int × List SlotInfo) → SlotInfo → List (Int × List SlotInfo)
  | [], info => [(info.config.die, [info])]
  | (d, g) :: rest, info =>
    if d = info.config.die then (d, g ++ [info]) :: rest
    else (d, g) :: addToGroups rest info

/-- Group the active slots by die size, preserving insertion order. -/
def groupByDie (l : List SlotInfo) : List (Int × List SlotInfo) :=
  l.foldl addToGroups []

/-- The depth used by checkAllSlots' post-trigger reset (lines 263-270): only
the transcript is consulted there, else 0. -/
def groupResetDepth (ctx : CheckContext) : Int :=
  match ctx.transcript with
  | some t => t.exchanges
  | none => 0

/-- The inner loop of one die-size group (checkAllSlots lines 249-277): each
member with a positive dice count observes the shared base roll plus its own
bonus dice; members with no dice get the inert outcome. -/
def processGroupSlots (dieSize baseRoll : Int) (sessionId : String)
    (ctx : CheckContext) (now : Int) :
    List SlotInfo → StoreMap → List Nat → List DiceResult × StoreMap × List Nat
  | [], files, rng => ([], files, rng)
  | info :: rest, files, rng =>
    if info.diceCount ≤ 0 then
      let t := processGroupSlots dieSize baseRoll sessionId ctx now rest files rng
      (inertResult info.config.name :: t.1, t.2.1, t.2.2)
    else
      let br :=
        if 1 < info.diceCount then rollDice (info.diceCount - 1) dieSize rng
        else ([], rng)
      let rolls := baseRoll :: br.1
      let best := bestOf rolls
      let triggered := checkTarget rolls info.config.target info.config.targetMode
      let probability :=
        calculateProbability info.diceCount dieSize info.config.target info.config.targetMode
      let files1 :=
        if triggered = true ∧ info.config.resetOnTrigger = true ∧
            info.config.type = SlotType.accumulator then
          resetState files info.config.name sessionId (groupResetDepth ctx) now
        else files
      let files2 :=
        if triggered = true ∧ info.config.cooldown = CooldownPolicy.perSession then
          markTriggered files1 info.config.name sessionId now
        else files1
      let t := processGroupSlots dieSize baseRoll sessionId ctx now rest files2 br.2
      ({ triggered := triggered, rolls := rolls, best := best,
         diceCount := info.diceCount, probability := probability,
         slotName := info.config.name } :: t.1, t.2.1, t.2.2)

/-- One die-size group (checkAllSlots lines 244-248): draw the shared base
roll only if some member needs at least one die (`baseRoll` stays the literal
0 otherwise), then run the member loop. -/
def processGroup (sessionId : String) (ctx : CheckContext) (now : Int)
    (dieSize : Int) (groupSlots : List SlotInfo) (files : StoreMap)
    (rng : List Nat) : List DiceResult × StoreMap × List Nat :=
  let anyNeedsDice := groupSlots.any fun s => 0 < s.diceCount
  let base :=
    if anyNeedsDice then
      let rr := rollDice 1 dieSize rng
      (rr.1.getD 0 0, rr.2)
    else (0, rng)
  processGroupSlots dieSize base.1 sessionId ctx now groupSlots files base.2

/-- Fold of `processGroup` over the groups, threading the store and the
random stream. -/
def processGroups (sessionId : String) (ctx : CheckContext) (now : Int) :
    List (Int × List SlotInfo) → StoreMap → List Nat →
    List DiceResult × StoreMap × List Nat
  | [], files, rng => ([], files, rng)
  | (d, g) :: rest, files, rng =>
    let h := processGroup sessionId ctx now d g files rng
    let t := processGroups sessionId ctx now rest h.2.1 h.2.2
    (h.1 ++ t.1, t.2.1, t.2.2)

/-- checkAllSlots (cooldown.ts): pre-filter, group by die size, process each
group against one shared base roll. -/
def checkAllSlots (ctx : CheckContext) (env : Env) : List DiceResult × Env :=
  if env.slots.isEmpty then ([], env)
  else
    let sessionId := resolveSessionId env.fallbackSessionId ctx
    let p := prefilter sessionId ctx env.slots env.files
    let groups := groupByDie p.2.1
    let g := processGroups sessionId ctx env.now groups p.2.2 env.rng
    (p.1 ++ g.1, { env with files := g.2.1, rng := g.2.2 })

/-- The loop body of sessionStart (cooldown.ts lines 291-297). -/
def sessionStartLoop (sessionId : String) (now : Int) :
    List DiceSlotConfig → StoreMap → List String × StoreMap
  | [], files => ([], files)
  | slot :: rest, files =>
    if slot.clearOnSessionStart = true then
      let files1 := clearState files slot.name sessionId now
      let files2 := clearCooldown files1 slot.name sessionId
      let t := sessionStartLoop sessionId now rest files2
      (slot.name :: t.1, t.2)
    else sessionStartLoop sessionId now rest files

/-- sessionStart (cooldown.ts): clear state and cooldown for every slot with
`clearOnSessionStart = true`; return the cleared names. -/
def sessionStart (ctx : CheckContext) (env : Env) : List String × Env :=
  let sessionId := resolveSessionId env.fallbackSessionId ctx
  let t := sessionStartLoop sessionId env.now env.slots env.files
  (t.1, { env with files := t.2 })

/-! ## registry.ts (src/unnamed/part_001) -/

/-- The argument object of registerSlot: `name`, `die`, `target` and the
trigger message are required, every other field optional (`none` = the key
was omitted from the call). -/
structure RegisterInput where
  name : String
  die : Int
  target : Int
  onTriggerMessage : String
  targetMode : Option TargetMode := none
  type : Option SlotType := none
  accumulationRate : Option Int := none
  maxDice : Option Int := none
  fixedCount : Option Int := none
  cooldown : Option CooldownPolicy := none
  clearOnSessionStart : Option Bool := none
  resetOnTrigger : Option Bool := none
  depthProvider : Option Int := none
deriving DecidableEq, Repr

/-- The JS spread `{...SLOT_DEFAULTS, ...config}`: every supplied key
overrides the package default (registry.ts SLOT_DEFAULTS). -/
def mkFullConfig (i : RegisterInput) : DiceSlotConfig :=
  { name := i.name
    die := i.die
    target := i.target
    targetMode := i.targetMode.getD TargetMode.exact
    type := i.type.getD SlotType.accumulator
    accumulationRate := i.accumulationRate.getD 7
    maxDice := i.maxDice.getD 100
    fixedCount := i.fixedCount.getD 1
    cooldown := i.cooldown.getD CooldownPolicy.perSession
    clearOnSessionStart := i.clearOnSessionStart.getD true
    resetOnTrigger := i.resetOnTrigger.getD true
    onTriggerMessage := i.onTriggerMessage
    depthProvider := i.depthProvider }

/-- The persisted registry document: `slots.json` as an insertion-ordered
key/value list (a JS object). -/
def Registry : Type := List (String × DiceSlotConfig)

/-- `slots[name] = v` on a JS object: replace in place if the key exists,
else append. -/
def upsertSlot : Registry → String → DiceSlotConfig → Registry
  | [], n, v => [(n, v)]
  | (k, w) :: rest, n, v =>
    if k = n then (k, v) :: rest else (k, w) :: upsertSlot rest n v

/-- registerSlot (registry.ts): merge the call's fields over the defaults,
strip `depthProvider`, persist under the name; return the unstripped merged
config. -/
def registerSlot (i : RegisterInput) (slots : Registry) : DiceSlotConfig × Registry :=
  let fullConfig := mkFullConfig i
  let serializable := { fullConfig with depthProvider := none }
  (fullConfig, upsertSlot slots fullConfig.name serializable)

/-- Object key lookup on the persisted registry. -/
def lookupSlot (slots : Registry) (name : String) : Option DiceSlotConfig :=
  (slots.find? fun kv => kv.1 = name).map fun kv => kv.2

/-! ## Support definitions for the theorems -/

/-- Total number of bonus draws a group consumes beyond the shared base
roll: `diceCount - 1` for each member that rolls more than one die. -/
def totalBonus (l : List SlotInfo) : Nat :=
  (l.map fun s => if 1 < s.diceCount then (s.diceCount - 1).toNat else 0).sum

/-- An empty state directory (test fixture). -/
def emptyFiles : StoreMap := fun _ => none

/-- A d20 accumulator slot with the package defaults (test fixture). -/
def sampleAcc : DiceSlotConfig :=
  { name := "acc", die := 20, target := 20, targetMode := TargetMode.exact,
    type := SlotType.accumulator, accumulationRate := 7, maxDice := 100,
    fixedCount := 1, cooldown := CooldownPolicy.perSession,
    clearOnSessionStart := true, resetOnTrigger := true,
    onTriggerMessage := "m", depthProvider := none }

/-- A context whose transcript resolves to depth `d` (test fixture). -/
def ctxAt (d : Int) : CheckContext :=
  { sessionId := some "s", transcript := some ⟨none, d⟩ }

/-- A two-member d6 group: one member wanting 2 dice, one inactive
(test fixture). -/
def poolA : SlotInfo := ⟨{ sampleAcc with name := "a", die := 6 }, 2⟩

/-- See `poolA`. -/
def poolB : SlotInfo := ⟨{ sampleAcc with name := "b", die := 6 }, 0⟩

/-- A single-kind d20 slot with exact target 20 (test fixture). -/
def singleA : DiceSlotConfig :=
  { sampleAcc with name := "a", type := SlotType.single, target := 20 }

/-- A single-kind d20 slot with exact target 2 (test fixture). -/
def singleB : DiceSlotConfig :=
  { sampleAcc with name := "b", type := SlotType.single, target := 2 }

/-- Registry with `singleA` and `singleB`, a random stream forcing a natural
20, and no prior state (test fixture). -/
def envAB : Env :=
  { slots := [singleA, singleB], files := emptyFiles, rng := [19], now := 0,
    fallbackSessionId := "f" }

/-- An accumulator slot that always triggers once it has dice: d2, target 1,
mode gte, one die per turn, capped at 3 (test fixture). -/
def accW : DiceSlotConfig :=
  { sampleAcc with
    die := 2,
    target := 1,
    targetMode := TargetMode.gte,
    accumulationRate := 1,
    maxDice := 3 }

/-- Registry with only `accW` and no prior state (test fixture). -/
def envW : Env :=
  { slots := [accW], files := emptyFiles, rng := [0, 0, 0], now := 9,
    fallbackSessionId := "f" }

end CcDice

namespace CcDice

/-! ## General-purpose lemmas -/

theorem loadState_saveState_self (files : StoreMap) (n s : String) (st : DiceState) :
    loadState (saveState files n s st) n s = st := by
  simp [loadState, saveState, Function.update_same]

theorem jsRound_bounds {q : ℚ} (h0 : 0 ≤ q) (h1 : q ≤ 10000) :
    (0 : Int) ≤ jsRound q ∧ jsRound q ≤ 10000 := by
  constructor
  · exact Int.floor_nonneg.mpr (by linarith)
  · have : jsRound q < 10001 := Int.floor_lt.mpr (by push_cast; linarith)
    omega

theorem probFormula_bounds (p : ℚ) (n : ℕ) (h0 : 0 ≤ p) (h1 : p ≤ 1) :
    0 ≤ (jsRound ((1 - p ^ n) * 10000) : ℚ) / 100 ∧
    (jsRound ((1 - p ^ n) * 10000) : ℚ) / 100 ≤ 100 := by
  have hpow0 : 0 ≤ p ^ n := pow_nonneg h0 _
  have hpow1 : p ^ n ≤ 1 := pow_le_one₀ h0 h1
  have hq0 : (0 : ℚ) ≤ (1 - p ^ n) * 10000 := by nlinarith
  have hq1 : (1 - p ^ n) * 10000 ≤ 10000 := by nlinarith
  have hr := jsRound_bounds hq0 hq1
  constructor
  · have : (0 : ℚ) ≤ (jsRound ((1 - p ^ n) * 10000) : ℚ) := by exact_mod_cast hr.1
    positivity
  · have h100 : (jsRound ((1 - p ^ n) * 10000) : ℚ) ≤ 10000 := by exact_mod_cast hr.2
    rw [div_le_iff (by norm_num : (0 : ℚ) < 100)]
    linarith

/-! ## C4 — calculateProbability -/

/-- C4 counterexample: the claim asserts the returned value always lies in
[0, 100] "including for targets outside the range [1, dieSize]", but for
mode `gte` with target 0 on a d20 the per-draw miss probability is -1/20 and
the result is 105. -/
theorem c4_probability_out_of_range :
    calculateProbability 1 20 0 TargetMode.gte = 105 ∧
    ¬ calculateProbability 1 20 0 TargetMode.gte ≤ 100 := by
  constructor <;> norm_num [calculateProbability, jsRound]

/-- C4 (amended): `calculateProbability` returns 0 whenever `count <= 0` or
`dieSize <= 0`, and the result lies in [0, 100] for `exact` mode with any
target, and for `gte`/`lte` when the target lies in `[1, dieSize]`; targets
outside that range in `gte`/`lte` mode can leave [0, 100]. -/
theorem c4_probability_bounds :
    (∀ (count dieSize target : Int) (mode : TargetMode),
      count ≤ 0 ∨ dieSize ≤ 0 → calculateProbability count dieSize target mode = 0) ∧
    (∀ (count dieSize target : Int) (mode : TargetMode),
      0 < count → 0 < dieSize →
      (mode = TargetMode.exact ∨ (1 ≤ target ∧ target ≤ dieSize)) →
      0 ≤ calculateProbability count dieSize target mode ∧
      calculateProbability count dieSize target mode ≤ 100) := by
  constructor
  · intro count dieSize target mode h
    simp [calculateProbability, h]
  · intro count dieSize target mode hc hd hrange
    have hnot : ¬ (count ≤ 0 ∨ dieSize ≤ 0) := by omega
    have hdq : (0 : ℚ) < (dieSize : ℚ) := by exact_mod_cast hd
    have hd1 : (1 : ℚ) ≤ (dieSize : ℚ) := by exact_mod_cast hd
    cases mode with
    | exact =>
      simp only [calculateProbability, if_neg hnot]
      exact probFormula_bounds _ count.toNat
        (div_nonneg (by linarith) (le_of_lt hdq)) (by rw [div_le_one hdq]; linarith)
    | gte =>
      rcases hrange with h | ⟨h1, h2⟩
      · exact absurd h (by simp)
      have ht1 : (1 : ℚ) ≤ (target : ℚ) := by exact_mod_cast h1
      have ht2 : (target : ℚ) ≤ (dieSize : ℚ) := by exact_mod_cast h2
      simp only [calculateProbability, if_neg hnot]
      exact probFormula_bounds _ count.toNat
        (div_nonneg (by linarith) (le_of_lt hdq)) (by rw [div_le_one hdq]; linarith)
    | lte =>
      rcases hrange with h | ⟨h1, h2⟩
      · exact absurd h (by simp)
      have ht1 : (1 : ℚ) ≤ (target : ℚ) := by exact_mod_cast h1
      have ht2 : (target : ℚ) ≤ (dieSize : ℚ) := by exact_mod_cast h2
      simp only [calculateProbability, if_neg hnot]
      exact probFormula_bounds _ count.toNat
        (div_nonneg (by linarith) (le_of_lt hdq)) (by rw [div_le_one hdq]; linarith)

/-- C4 witness: the amended bounds at `calculateProbability(1, 20, 20, exact)`
(which equals 5, the d20 natural-20 chance). -/
theorem c4_probability_bounds_witness :
    (0 : Int) < 1 ∧ (0 : Int) < 20 ∧
    (0 ≤ calculateProbability 1 20 20 TargetMode.exact ∧
     calculateProbability 1 20 20 TargetMode.exact ≤ 100) ∧
    calculateProbability 1 20 20 TargetMode.exact = 5 :=
  ⟨by norm_num, by norm_num,
   c4_probability_bounds.2 1 20 20 TargetMode.exact (by norm_num) (by norm_num)
     (Or.inl rfl),
   by norm_num [calculateProbability, jsRound]⟩

/-! ## C6 — accumulator dice count formula -/

/-- C6: for an accumulator slot whose stored state is calibrated
(`depth_at_last_trigger >= 0`) and whose accumulation rate is positive, the
computed dice count is
`min(floor(max(0, currentDepth - depthAtLastTrigger) / accumulationRate), maxDice)`,
the store is left untouched (read-only path), and the count is monotone in
the current depth. -/
theorem c6_accumulator_dice_count (cfg : DiceSlotConfig) (sessionId : String)
    (ctx : CheckContext) (files : StoreMap)
    (hcal : 0 ≤ (loadState files cfg.name sessionId).depth_at_last_trigger)
    (hrate : 0 < cfg.accumulationRate) :
    (getAccumulatorDiceCount cfg sessionId ctx files).1.diceCount =
      min ((max 0 (resolveDepth cfg ctx -
            (loadState files cfg.name sessionId).depth_at_last_trigger)).fdiv
           cfg.accumulationRate) cfg.maxDice ∧
    (getAccumulatorDiceCount cfg sessionId ctx files).2 = files ∧
    (∀ ctx2 : CheckContext, resolveDepth cfg ctx ≤ resolveDepth cfg ctx2 →
      (getAccumulatorDiceCount cfg sessionId ctx files).1.diceCount ≤
      (getAccumulatorDiceCount cfg sessionId ctx2 files).1.diceCount) := by
  have hne : ¬ (loadState files cfg.name sessionId).depth_at_last_trigger < 0 :=
    not_lt.mpr hcal
  refine ⟨?_, ?_, ?_⟩
  · simp [getAccumulatorDiceCount, hne]
  · simp [getAccumulatorDiceCount, hne]
  · intro ctx2 hd
    simp only [getAccumulatorDiceCount, if_neg hne]
    have h1 : max 0 (resolveDepth cfg ctx -
        (loadState files cfg.name sessionId).depth_at_last_trigger) ≤
        max 0 (resolveDepth cfg ctx2 -
        (loadState files cfg.name sessionId).depth_at_last_trigger) :=
      max_le_max le_rfl (by omega)
    have h2 : (max 0 (resolveDepth cfg ctx -
        (loadState files cfg.name sessionId).depth_at_last_trigger)).fdiv
          cfg.accumulationRate ≤
        (max 0 (resolveDepth cfg ctx2 -
        (loadState files cfg.name sessionId).depth_at_last_trigger)).fdiv
          cfg.accumulationRate := by
      rw [Int.fdiv_eq_ediv _ (le_of_lt hrate), Int.fdiv_eq_ediv _ (le_of_lt hrate)]
      exact Int.ediv_le_ediv hrate h1
    exact min_le_min h2 le_rfl

/-- C6 witness: with rate 7, baseline 0 (fresh store) — depth 5 gives 0 dice,
7 gives 1, 14 gives 2, 21 gives 3; depth 100 with maxDice 5 gives 5. -/
theorem c6_accumulator_dice_count_witness :
    0 ≤ (loadState emptyFiles sampleAcc.name "s").depth_at_last_trigger ∧
    (0 : Int) < 7 ∧
    (getAccumulatorDiceCount sampleAcc "s" (ctxAt 5) emptyFiles).1.diceCount = 0 ∧
    (getAccumulatorDiceCount sampleAcc "s" (ctxAt 7) emptyFiles).1.diceCount = 1 ∧
    (getAccumulatorDiceCount sampleAcc "s" (ctxAt 14) emptyFiles).1.diceCount = 2 ∧
    (getAccumulatorDiceCount sampleAcc "s" (ctxAt 21) emptyFiles).1.diceCount = 3 ∧
    (getAccumulatorDiceCount { sampleAcc with maxDice := 5 } "s" (ctxAt 100)
       emptyFiles).1.diceCount = 5 := by
  refine ⟨by decide, by decide, ?_, ?_, ?_, ?_, ?_⟩
  · exact (c6_accumulator_dice_count sampleAcc "s" (ctxAt 5) emptyFiles
      (by decide) (by decide)).1.trans (by decide)
  · exact (c6_accumulator_dice_count sampleAcc "s" (ctxAt 7) emptyFiles
      (by decide) (by decide)).1.trans (by decide)
  · exact (c6_accumulator_dice_count sampleAcc "s" (ctxAt 14) emptyFiles
      (by decide) (by decide)).1.trans (by decide)
  · exact (c6_accumulator_dice_count sampleAcc "s" (ctxAt 21) emptyFiles
      (by decide) (by decide)).1.trans (by decide)
  · exact (c6_accumulator_dice_count { sampleAcc with maxDice := 5 } "s" (ctxAt 100)
      emptyFiles (by decide) (by decide)).1.trans (by decide)

/-! ## C7 — sentinel calibration -/

/-- C7: when the stored `depth_at_last_trigger` is the negative sentinel, the
evaluation calibrates first: it returns 0 dice and persists the current
depth as the new baseline.  The function is total — the sentinel case is
resolved by calibration, never by an error. -/
theorem c7_sentinel_calibrates (cfg : DiceSlotConfig) (sessionId : String)
    (ctx : CheckContext) (files : StoreMap)
    (hsent : (loadState files cfg.name sessionId).depth_at_last_trigger < 0)
    (hrate : 0 < cfg.accumulationRate) (hmax : 0 ≤ cfg.maxDice) :
    (getAccumulatorDiceCount cfg sessionId ctx files).1.diceCount = 0 ∧
    (loadState (getAccumulatorDiceCount cfg sessionId ctx files).2 cfg.name
       sessionId).depth_at_last_trigger = resolveDepth cfg ctx := by
  constructor
  · simp only [getAccumulatorDiceCount, if_pos hsent, sub_self, max_self,
      Int.zero_fdiv]
    exact min_eq_left hmax
  · simp only [getAccumulatorDiceCount, if_pos hsent]
    rw [loadState_saveState_self]

/-- C7 witness: stored sentinel -1 with current depth 21 yields 0 dice and a
persisted baseline of 21. -/
theorem c7_sentinel_calibrates_witness :
    (loadState (saveState emptyFiles "acc" "s"
        { depth_at_last_trigger := -1, last_reset := 0 }) sampleAcc.name
        "s").depth_at_last_trigger < 0 ∧
    (getAccumulatorDiceCount sampleAcc "s" (ctxAt 21)
        (saveState emptyFiles "acc" "s"
          { depth_at_last_trigger := -1, last_reset := 0 })).1.diceCount = 0 ∧
    (loadState (getAccumulatorDiceCount sampleAcc "s" (ctxAt 21)
        (saveState emptyFiles "acc" "s"
          { depth_at_last_trigger := -1, last_reset := 0 })).2 sampleAcc.name
        "s").depth_at_last_trigger = 21 := by
  have h := c7_sentinel_calibrates sampleAcc "s" (ctxAt 21)
    (saveState emptyFiles "acc" "s" { depth_at_last_trigger := -1, last_reset := 0 })
    (by decide) (by decide) (by decide)
  exact ⟨by decide, h.1, h.2.trans (by decide)⟩

/-! ## C10 — registerSlot upsert semantics -/

theorem lookupSlot_upsert_self (r : Registry) (n : String) (v : DiceSlotConfig) :
    lookupSlot (upsertSlot r n v) n = some v := by
  induction r with
  | nil => simp [upsertSlot, lookupSlot, List.find?]
  | cons kv rest ih =>
    obtain ⟨k, w⟩ := kv
    by_cases hk : k = n
    · simp [upsertSlot, hk, lookupSlot, List.find?]
    · simp only [upsertSlot, if_neg hk]
      simpa [lookupSlot, List.find?, hk] using ih

theorem lookupSlot_upsert_ne (r : Registry) (n m : String) (v : DiceSlotConfig)
    (hmn : m ≠ n) : lookupSlot (upsertSlot r n v) m = lookupSlot r m := by
  induction r with
  | nil =>
    have hnm : ¬ (n = m) := fun h => hmn h.symm
    simp [upsertSlot, lookupSlot, List.find?, hnm]
  | cons kv rest ih =>
    obtain ⟨k, w⟩ := kv
    by_cases hk : k = n
    · subst hk
      have hkm : ¬ (k = m) := fun h => hmn h.symm
      simp [upsertSlot, lookupSlot, List.find?, hkm]
    · by_cases hkm : k = m
      · subst hkm
        simp [upsertSlot, if_neg hk, lookupSlot, List.find?]
      · simp only [upsertSlot, if_neg hk]
        simpa [lookupSlot, List.find?, hkm] using ih

/-- C10: re-registering a name replaces the stored entry with the package
defaults overridden by exactly the supplied fields — independently of
whatever was stored before (the right-hand side does not mention the prior
registry) — with `depthProvider` stripped; entries under other names are
untouched. -/
theorem c10_register_replaces_with_defaults (i : RegisterInput) (slots : Registry) :
    lookupSlot (registerSlot i slots).2 i.name =
      some { mkFullConfig i with depthProvider := none } ∧
    (∀ m : String, m ≠ i.name → lookupSlot (registerSlot i slots).2 m = lookupSlot slots m) := by
  constructor
  · exact lookupSlot_upsert_self slots i.name _
  · intro m hm
    exact lookupSlot_upsert_ne slots i.name m _ hm

/-- C10 witness: re-registering "acc" supplying only `die`, `target`, message
and `maxDice := 5` over a registry that previously stored `sampleAcc`
(with maxDice 100, accumulationRate 7): the stored entry reverts every
omitted field to the package default and keeps the supplied override, and an
unrelated entry is untouched. -/
theorem c10_register_replaces_with_defaults_witness :
    lookupSlot (registerSlot
        { name := "acc", die := 6, target := 6, onTriggerMessage := "n",
          maxDice := some 5 }
        [("acc", sampleAcc), ("other", { sampleAcc with name := "other" })]).2
      "acc" =
      some { name := "acc", die := 6, target := 6, targetMode := TargetMode.exact,
             type := SlotType.accumulator, accumulationRate := 7, maxDice := 5,
             fixedCount := 1, cooldown := CooldownPolicy.perSession,
             clearOnSessionStart := true, resetOnTrigger := true,
             onTriggerMessage := "n", depthProvider := none } ∧
    lookupSlot (registerSlot
        { name := "acc", die := 6, target := 6, onTriggerMessage := "n",
          maxDice := some 5 }
        [("acc", sampleAcc), ("other", { sampleAcc with name := "other" })]).2
      "other" =
      lookupSlot [("acc", sampleAcc), ("other", { sampleAcc with name := "other" })]
        "other" := by
  have h := c10_register_replaces_with_defaults
    { name := "acc", die := 6, target := 6, onTriggerMessage := "n", maxDice := some 5 }
    [("acc", sampleAcc), ("other", { sampleAcc with name := "other" })]
  exact ⟨h.1.trans (by decide), h.2 "other" (by decide)⟩

/-! ## File-name algebra

Within a single session, the four keys a slot touches are pairwise distinct
across distinct slot names, and a state-file name can never equal a
marker-file name (the former ends in ".json" after the session id, the
latter ends in the session id itself — the mismatch regresses forever).
These lemmas justify every frame argument below. -/

theorem strData_append (s t : String) : (s ++ t).data = s.data ++ t.data := by
  cases s; cases t; rfl

theorem stateMarker_aux :
    ∀ (n : ℕ) (r a b : List Char), r.length ≤ n →
      ['n', 'o', 's', 'j', '.'] ++ (r ++ ('-' :: a)) ≠
      r ++ ('-' :: (b ++ ['-', 'd', 'e', 'r', 'e', 'g', 'g', 'i', 'r', 't'])) := by
  intro n
  induction n with
  | zero =>
    intro r a b hlen heq
    rcases List.length_eq_zero.mp (Nat.le_zero.mp hlen) with rfl
    simp only [List.cons_append, List.nil_append] at heq
    exact absurd ((List.cons.injEq _ _ _ _).mp heq).1 (by decide)
  | succ n ih =>
    intro r a b hlen heq
    rcases r with _ | ⟨c1, _ | ⟨c2, _ | ⟨c3, _ | ⟨c4, _ | ⟨c5, r2⟩⟩⟩⟩⟩
    · simp only [List.cons_append, List.nil_append] at heq
      exact absurd ((List.cons.injEq _ _ _ _).mp heq).1 (by decide)
    · simp only [List.cons_append, List.nil_append, List.cons.injEq] at heq
      exact absurd heq.2.1 (by decide)
    · simp only [List.cons_append, List.nil_append, List.cons.injEq] at heq
      exact absurd heq.2.2.1 (by decide)
    · simp only [List.cons_append, List.nil_append, List.cons.injEq] at heq
      exact absurd heq.2.2.2.1 (by decide)
    · simp only [List.cons_append, List.nil_append, List.cons.injEq] at heq
      exact absurd heq.2.2.2.2.1 (by decide)
    · simp only [List.cons_append, List.nil_append, List.cons.injEq] at heq
      obtain ⟨h1, h2, h3, h4, h5, htail⟩ := heq
      subst h1; subst h2; subst h3; subst h4; subst h5
      have hlen2 : r2.length ≤ n := by
        simp only [List.length_cons] at hlen; omega
      exact ih r2 a b hlen2 htail

/-- A state-file name never equals a marker-file name for the same session
id, whatever the two slot names are. -/
theorem getStateFile_ne_getMarkerFile (a b s : String) :
    getStateFile a s ≠ getMarkerFile b s := by
  intro h
  have hd := congrArg String.data h
  simp only [getStateFile, getMarkerFile, strData_append] at hd
  have hrev := congrArg List.reverse hd
  simp only [List.reverse_append, List.reverse_cons, List.reverse_nil,
    List.nil_append, List.cons_append, List.append_assoc] at hrev
  exact stateMarker_aux s.data.reverse.length s.data.reverse a.data.reverse
    b.data.reverse le_rfl hrev

/-- For a fixed session id, distinct slot names give distinct state files. -/
theorem getStateFile_inj {a a' s : String} (h : getStateFile a s = getStateFile a' s) :
    a = a' := by
  have hd := congrArg String.data h
  simp only [getStateFile, strData_append] at hd
  exact String.ext
    (List.append_cancel_right (List.append_cancel_right (List.append_cancel_right hd)))

/-- For a fixed session id, distinct slot names give distinct marker files. -/
theorem getMarkerFile_inj {b b' s : String}
    (h : getMarkerFile b s = getMarkerFile b' s) : b = b' := by
  have hd := congrArg String.data h
  simp only [getMarkerFile, strData_append] at hd
  exact String.ext
    (List.append_cancel_left
      (List.append_cancel_right (List.append_cancel_right hd)))

/-- clearCooldown only touches the marker file it names. -/
theorem clearCooldown_apply_noteq (files : StoreMap) (n s : String) (k : String)
    (hk : k ≠ getMarkerFile n s) : clearCooldown files n s k = files k := by
  unfold clearCooldown
  by_cases h : hasCooldown files n s = true
  · rw [if_pos h, Function.update_noteq hk]
  · rw [if_neg h]

/-- saveState only touches the state file it names. -/
theorem saveState_apply_noteq (files : StoreMap) (n s : String) (st : DiceState)
    (k : String) (hk : k ≠ getStateFile n s) : saveState files n s st k = files k := by
  unfold saveState
  rw [Function.update_noteq hk]

/-- markTriggered only touches the marker file it names. -/
theorem markTriggered_apply_noteq (files : StoreMap) (n s : String) (now : Int)
    (k : String) (hk : k ≠ getMarkerFile n s) : markTriggered files n s now k = files k := by
  unfold markTriggered
  rw [Function.update_noteq hk]

/-- clearCooldown leaves no marker behind at its own key. -/
theorem clearCooldown_apply_self (files : StoreMap) (n s : String) :
    clearCooldown files n s (getMarkerFile n s) = none := by
  unfold clearCooldown hasCooldown
  by_cases h : (files (getMarkerFile n s)).isSome = true
  · rw [if_pos h, Function.update_same]
  · rw [if_neg h]
    exact Option.not_isSome_iff_eq_none.mp h

/-! ## C8 — per-session cooldown short-circuits evaluation -/

/-- C8: when the per-session cooldown marker exists, `checkSlot` returns the
inert outcome and the environment completely unchanged (no dice drawn from
the stream, no file read into the result, no file written — in particular no
accumulator calibration), and the pre-filter loop of `checkAllSlots` emits
the inert outcome for the cooled slot without computing its dice count,
without adding it to the active list and without touching the store. -/
theorem c8_cooldown_short_circuit :
    (∀ (env : Env) (ctx : CheckContext) (name : String) (cfg : DiceSlotConfig),
      getSlot env.slots name = some cfg →
      cfg.cooldown = CooldownPolicy.perSession →
      hasCooldown env.files name (resolveSessionId env.fallbackSessionId ctx) = true →
      checkSlot name ctx env = (inertResult name, env)) ∧
    (∀ (sessionId : String) (ctx : CheckContext) (cfg : DiceSlotConfig)
      (rest : List DiceSlotConfig) (files : StoreMap),
      cfg.cooldown = CooldownPolicy.perSession →
      hasCooldown files cfg.name sessionId = true →
      prefilter sessionId ctx (cfg :: rest) files =
        (inertResult cfg.name :: (prefilter sessionId ctx rest files).1,
         (prefilter sessionId ctx rest files).2.1,
         (prefilter sessionId ctx rest files).2.2)) := by
  constructor
  · intro env ctx name cfg hfind hcd hcool
    simp only [checkSlot, hfind]
    rw [if_pos ⟨hcd, hcool⟩]
  · intro sessionId ctx cfg rest files hcd hcool
    simp only [prefilter]
    rw [if_pos ⟨hcd, hcool⟩]

/-- C8 witness: a d20 slot under an active cooldown marker is returned inert
with the environment unchanged, both by checkSlot and by the pre-filter. -/
theorem c8_cooldown_short_circuit_witness :
    checkSlot "acc" { sessionId := some "s", transcript := none }
        { slots := [sampleAcc], files := markTriggered emptyFiles "acc" "s" 0,
          rng := [7], now := 3, fallbackSessionId := "f" } =
      (inertResult "acc",
       { slots := [sampleAcc], files := markTriggered emptyFiles "acc" "s" 0,
         rng := [7], now := 3, fallbackSessionId := "f" }) ∧
    prefilter "s" { sessionId := some "s", transcript := none } [sampleAcc]
        (markTriggered emptyFiles "acc" "s" 0) =
      (inertResult "acc" ::
        (prefilter "s" { sessionId := some "s", transcript := none } []
          (markTriggered emptyFiles "acc" "s" 0)).1,
       (prefilter "s" { sessionId := some "s", transcript := none } []
          (markTriggered emptyFiles "acc" "s" 0)).2.1,
       (prefilter "s" { sessionId := some "s", transcript := none } []
          (markTriggered emptyFiles "acc" "s" 0)).2.2) :=
  ⟨c8_cooldown_short_circuit.1
      { slots := [sampleAcc], files := markTriggered emptyFiles "acc" "s" 0,
        rng := [7], now := 3, fallbackSessionId := "f" }
      { sessionId := some "s", transcript := none } "acc" sampleAcc
      (by decide) rfl (by decide),
   c8_cooldown_short_circuit.2 "s" { sessionId := some "s", transcript := none }
      sampleAcc [] (markTriggered emptyFiles "acc" "s" 0) rfl (by decide)⟩

/-! ## C9 — sessionStart -/

theorem sessionStartLoop_names (sid : String) (now : Int) :
    ∀ (slots : List DiceSlotConfig) (files : StoreMap),
      (sessionStartLoop sid now slots files).1 =
        (slots.filter fun c => c.clearOnSessionStart).map fun c => c.name := by
  intro slots
  induction slots with
  | nil => intro files; rfl
  | cons slot rest ih =>
    intro files
    by_cases h : slot.clearOnSessionStart = true
    · simp [sessionStartLoop, h, List.filter_cons, ih]
    · simp [sessionStartLoop, h, List.filter_cons, ih]

theorem sessionStartLoop_frame (sid : String) (now : Int) :
    ∀ (slots : List DiceSlotConfig) (files : StoreMap) (k : String),
      (∀ cfg ∈ slots, cfg.clearOnSessionStart = true →
        k ≠ getStateFile cfg.name sid ∧ k ≠ getMarkerFile cfg.name sid) →
      (sessionStartLoop sid now slots files).2 k = files k := by
  intro slots
  induction slots with
  | nil => intro files k _; rfl
  | cons slot rest ih =>
    intro files k h
    by_cases hc : slot.clearOnSessionStart = true
    · have hk := h slot (by simp) hc
      simp only [sessionStartLoop, if_pos hc]
      rw [ih _ k fun cfg hm hf => h cfg (List.mem_cons_of_mem _ hm) hf]
      rw [clearCooldown_apply_noteq _ _ _ _ hk.2]
      exact saveState_apply_noteq _ _ _ _ _ hk.1
    · simp only [sessionStartLoop, if_neg hc]
      exact ih _ k fun cfg hm hf => h cfg (List.mem_cons_of_mem _ hm) hf

theorem sessionStartLoop_cleared (sid : String) (now : Int) :
    ∀ (slots : List DiceSlotConfig) (files : StoreMap) (n : String),
      (∃ cfg ∈ slots, cfg.name = n ∧ cfg.clearOnSessionStart = true) →
      (sessionStartLoop sid now slots files).2 (getStateFile n sid) =
        some (FileContent.state { depth_at_last_trigger := 0, last_reset := now }) ∧
      (sessionStartLoop sid now slots files).2 (getMarkerFile n sid) = none := by
  intro slots
  induction slots with
  | nil =>
    intro files n h
    rcases h with ⟨cfg, hm, _⟩
    exact absurd hm (List.not_mem_nil cfg)
  | cons slot rest ih =>
    intro files n h
    by_cases hrest : ∃ cfg ∈ rest, cfg.name = n ∧ cfg.clearOnSessionStart = true
    · by_cases hc : slot.clearOnSessionStart = true
      · simp only [sessionStartLoop, if_pos hc]
        exact ih _ n hrest
      · simp only [sessionStartLoop, if_neg hc]
        exact ih _ n hrest
    · rcases h with ⟨cfg, hm, hname, hflag⟩
      rcases List.mem_cons.mp hm with hhead | htail
      · subst hhead
        subst hname
        simp only [sessionStartLoop, if_pos hflag]
        have hframe : ∀ k : String,
            (∀ cfg2 ∈ rest, cfg2.clearOnSessionStart = true →
              k ≠ getStateFile cfg2.name sid ∧ k ≠ getMarkerFile cfg2.name sid) →
            (sessionStartLoop sid now rest
              (clearCooldown (clearState files cfg.name sid now) cfg.name sid)).2 k =
            (clearCooldown (clearState files cfg.name sid now) cfg.name sid) k :=
          fun k hk => sessionStartLoop_frame sid now rest _ k hk
        have hnm : ∀ cfg2 ∈ rest, cfg2.clearOnSessionStart = true → cfg2.name ≠ cfg.name :=
          fun cfg2 hm2 hf2 he => hrest ⟨cfg2, hm2, he, hf2⟩
        constructor
        · rw [hframe _ fun cfg2 hm2 hf2 =>
            ⟨fun he => hnm cfg2 hm2 hf2 (getStateFile_inj he.symm),
             fun he => getStateFile_ne_getMarkerFile cfg.name cfg2.name sid he⟩]
          rw [clearCooldown_apply_noteq _ _ _ _
            (getStateFile_ne_getMarkerFile cfg.name cfg.name sid)]
          unfold clearState saveState
          rw [Function.update_same]
        · rw [hframe _ fun cfg2 hm2 hf2 =>
            ⟨fun he => getStateFile_ne_getMarkerFile cfg2.name cfg.name sid he.symm,
             fun he => hnm cfg2 hm2 hf2 (getMarkerFile_inj he.symm)⟩]
          exact clearCooldown_apply_self _ cfg.name sid
      · exact absurd ⟨cfg, htail, hname, hflag⟩ hrest

/-- C9: `sessionStart` clears the accumulator state (depth 0) and removes the
cooldown marker for exactly the slots with `clearOnSessionStart = true`,
returns exactly those slot names, leaves the state files and markers of every
other slot name untouched, and is idempotent: a second call returns the same
names and leaves the same depth values and marker presence. -/
theorem c9_session_start (ctx : CheckContext) (env : Env) (sid : String)
    (hsid : sid = resolveSessionId env.fallbackSessionId ctx) :
    (sessionStart ctx env).1 =
      (env.slots.filter fun c => c.clearOnSessionStart).map (fun c => c.name) ∧
    (∀ cfg ∈ env.slots, cfg.clearOnSessionStart = true →
      (loadState (sessionStart ctx env).2.files cfg.name sid).depth_at_last_trigger = 0 ∧
      hasCooldown (sessionStart ctx env).2.files cfg.name sid = false) ∧
    (∀ name : String, name ∉ (sessionStart ctx env).1 →
      (sessionStart ctx env).2.files (getStateFile name sid) =
        env.files (getStateFile name sid) ∧
      (sessionStart ctx env).2.files (getMarkerFile name sid) =
        env.files (getMarkerFile name sid)) ∧
    (sessionStart ctx (sessionStart ctx env).2).1 = (sessionStart ctx env).1 ∧
    (∀ name : String,
      (loadState (sessionStart ctx (sessionStart ctx env).2).2.files name
        sid).depth_at_last_trigger =
        (loadState (sessionStart ctx env).2.files name sid).depth_at_last_trigger ∧
      hasCooldown (sessionStart ctx (sessionStart ctx env).2).2.files name sid =
        hasCooldown (sessionStart ctx env).2.files name sid) := by
  subst hsid
  refine ⟨?_, ?_, ?_, ?_, ?_⟩
  · simp only [sessionStart]
    exact sessionStartLoop_names _ _ env.slots env.files
  · intro cfg hm hf
    have h := sessionStartLoop_cleared (resolveSessionId env.fallbackSessionId ctx)
      env.now env.slots env.files cfg.name ⟨cfg, hm, rfl, hf⟩
    simp only [sessionStart]
    constructor
    · simp only [loadState, h.1]
    · simp only [hasCooldown, h.2, Option.isSome_none]
  · intro name hnot
    simp only [sessionStart] at hnot ⊢
    rw [sessionStartLoop_names] at hnot
    have hkeys : ∀ cfg ∈ env.slots, cfg.clearOnSessionStart = true →
        cfg.name ≠ name := by
      intro cfg hm hf he
      exact hnot (by
        subst he
        exact List.mem_map_of_mem _ (List.mem_filter.mpr ⟨hm, by simp [hf]⟩))
    constructor
    · exact sessionStartLoop_frame _ _ env.slots env.files _ fun cfg hm hf =>
        ⟨fun he => hkeys cfg hm hf (getStateFile_inj he.symm),
         fun he => getStateFile_ne_getMarkerFile name cfg.name _ he⟩
    · exact sessionStartLoop_frame _ _ env.slots env.files _ fun cfg hm hf =>
        ⟨fun he => getStateFile_ne_getMarkerFile cfg.name name _ he.symm,
         fun he => hkeys cfg hm hf (getMarkerFile_inj he.symm)⟩
  · simp only [sessionStart]
    rw [sessionStartLoop_names, sessionStartLoop_names]
  · intro name
    simp only [sessionStart]
    by_cases hmem : ∃ cfg ∈ env.slots, cfg.name = name ∧ cfg.clearOnSessionStart = true
    · have h1 := sessionStartLoop_cleared (resolveSessionId env.fallbackSessionId ctx)
        env.now env.slots env.files name hmem
      have h2 := sessionStartLoop_cleared (resolveSessionId env.fallbackSessionId ctx)
        env.now env.slots
        (sessionStartLoop (resolveSessionId env.fallbackSessionId ctx) env.now
          env.slots env.files).2 name hmem
      constructor
      · simp only [loadState, h1.1, h2.1]
      · simp only [hasCooldown, h1.2, h2.2]
    · have hkeys : ∀ cfg ∈ env.slots, cfg.clearOnSessionStart = true →
          cfg.name ≠ name := fun cfg hm hf he => hmem ⟨cfg, hm, he, hf⟩
      have hs := sessionStartLoop_frame (resolveSessionId env.fallbackSessionId ctx)
        env.now env.slots
        (sessionStartLoop (resolveSessionId env.fallbackSessionId ctx) env.now
          env.slots env.files).2
        (getStateFile name (resolveSessionId env.fallbackSessionId ctx))
        (fun cfg hm hf =>
          ⟨fun he => hkeys cfg hm hf (getStateFile_inj he.symm),
           fun he => getStateFile_ne_getMarkerFile name cfg.name _ he⟩)
      have hmk := sessionStartLoop_frame (resolveSessionId env.fallbackSessionId ctx)
        env.now env.slots
        (sessionStartLoop (resolveSessionId env.fallbackSessionId ctx) env.now
          env.slots env.files).2
        (getMarkerFile name (resolveSessionId env.fallbackSessionId ctx))
        (fun cfg hm hf =>
          ⟨fun he => getStateFile_ne_getMarkerFile cfg.name name _ he.symm,
           fun he => hkeys cfg hm hf (getMarkerFile_inj he.symm)⟩)
      constructor
      · simp only [loadState, hs]
      · simp only [hasCooldown, hmk]

/-- C9 witness: a registry with one flagged slot "acc" and one unflagged slot
"keep": sessionStart returns exactly ["acc"], clears acc's state and marker,
leaves keep's pre-existing state file untouched, and a second call returns
["acc"] again with the same depth values. -/
theorem c9_session_start_witness :
    (sessionStart { sessionId := some "s", transcript := none }
        { slots := [sampleAcc,
            { sampleAcc with name := "keep", clearOnSessionStart := false }],
          files := saveState (markTriggered emptyFiles "acc" "s" 0) "keep" "s"
            { depth_at_last_trigger := 9, last_reset := 1 },
          rng := [], now := 4, fallbackSessionId := "f" }).1 = ["acc"] ∧
    (loadState (sessionStart { sessionId := some "s", transcript := none }
        { slots := [sampleAcc,
            { sampleAcc with name := "keep", clearOnSessionStart := false }],
          files := saveState (markTriggered emptyFiles "acc" "s" 0) "keep" "s"
            { depth_at_last_trigger := 9, last_reset := 1 },
          rng := [], now := 4, fallbackSessionId := "f" }).2.files "acc"
        "s").depth_at_last_trigger = 0 ∧
    hasCooldown (sessionStart { sessionId := some "s", transcript := none }
        { slots := [sampleAcc,
            { sampleAcc with name := "keep", clearOnSessionStart := false }],
          files := saveState (markTriggered emptyFiles "acc" "s" 0) "keep" "s"
            { depth_at_last_trigger := 9, last_reset := 1 },
          rng := [], now := 4, fallbackSessionId := "f" }).2.files "acc" "s" = false ∧
    (sessionStart { sessionId := some "s", transcript := none }
        { slots := [sampleAcc,
            { sampleAcc with name := "keep", clearOnSessionStart := false }],
          files := saveState (markTriggered emptyFiles "acc" "s" 0) "keep" "s"
            { depth_at_last_trigger := 9, last_reset := 1 },
          rng := [], now := 4, fallbackSessionId := "f" }).2.files
      (getStateFile "keep" "s") =
      saveState (markTriggered emptyFiles "acc" "s" 0) "keep" "s"
        { depth_at_last_trigger := 9, last_reset := 1 } (getStateFile "keep" "s") := by
  have h := c9_session_start { sessionId := some "s", transcript := none }
    { slots := [sampleAcc,
        { sampleAcc with name := "keep", clearOnSessionStart := false }],
      files := saveState (markTriggered emptyFiles "acc" "s" 0) "keep" "s"
        { depth_at_last_trigger := 9, last_reset := 1 },
      rng := [], now := 4, fallbackSessionId := "f" } "s" rfl
  refine ⟨h.1.trans (by decide), ?_, ?_, ?_⟩
  · exact (h.2.1 sampleAcc (by decide) rfl).1
  · exact (h.2.1 sampleAcc (by decide) rfl).2
  · exact (h.2.2.1 "keep" (by rw [h.1]; decide)).1

/-! ## Rolling lemmas -/

theorem natRoll_bounds (dieSize : Int) (hd : 0 < dieSize) (u : Nat) :
    1 ≤ natRoll dieSize u ∧ natRoll dieSize u ≤ dieSize := by
  unfold natRoll
  constructor
  · have := Int.emod_nonneg (u : Int) (by omega : dieSize ≠ 0)
    omega
  · have := Int.emod_lt_of_pos (u : Int) hd
    omega

theorem rollDice_pos (count dieSize : Int) (rng : List Nat) (hc : 0 < count)
    (hd : 0 < dieSize) :
    (rollDice count dieSize rng).1 =
      (List.range count.toNat).map (fun i => natRoll dieSize (rng.getD i 0)) ∧
    (rollDice count dieSize rng).2 = rng.drop count.toNat := by
  unfold rollDice
  rw [if_neg (by omega)]
  exact ⟨rfl, rfl⟩

theorem rollDice_length (count dieSize : Int) (rng : List Nat) (hc : 0 < count)
    (hd : 0 < dieSize) : (rollDice count dieSize rng).1.length = count.toNat := by
  rw [(rollDice_pos count dieSize rng hc hd).1]
  simp

theorem rollDice_mem_bounds (count dieSize : Int) (rng : List Nat) (hd : 0 < dieSize) :
    ∀ x ∈ (rollDice count dieSize rng).1, 1 ≤ x ∧ x ≤ dieSize := by
  intro x hx
  unfold rollDice at hx
  by_cases h : count ≤ 0 ∨ dieSize ≤ 0
  · rw [if_pos h] at hx
    simp at hx
  · rw [if_neg h] at hx
    simp only [List.mem_map] at hx
    obtain ⟨i, _, rfl⟩ := hx
    exact natRoll_bounds dieSize hd _

theorem forall2_mem_right {α β : Type _} {R : α → β → Prop} :
    ∀ {l₁ : List α} {l₂ : List β}, List.Forall₂ R l₁ l₂ →
      ∀ b ∈ l₂, ∃ a ∈ l₁, R a b := by
  intro l₁ l₂ h
  induction h with
  | nil => intro b hb; exact absurd hb (List.not_mem_nil b)
  | cons hab hrest ih =>
    intro b hb
    rcases List.mem_cons.mp hb with rfl | hb2
    · exact ⟨_, List.mem_cons_self _ _, hab⟩
    · obtain ⟨a, ha, hr⟩ := ih b hb2
      exact ⟨a, List.mem_cons_of_mem _ ha, hr⟩

theorem totalBonus_cons (i : SlotInfo) (rest : List SlotInfo) :
    totalBonus (i :: rest) =
      (if 1 < i.diceCount then (i.diceCount - 1).toNat else 0) + totalBonus rest := by
  simp [totalBonus]

/-! ## The member loop of one die-size group -/

/-- Per-member specification of `processGroupSlots`: results line up with the
members in order; an inactive member gets the inert outcome; an active member
reports its dice count, rolls the shared base roll first, gets no bonus dice
when its count is 1, and (for a positive die size) gets exactly
`diceCount - 1` in-range bonus dice; the loop consumes exactly the bonus
draws from the stream. -/
theorem processGroupSlots_spec (dieSize baseRoll : Int) (sid : String)
    (ctx : CheckContext) (now : Int) :
    ∀ (l : List SlotInfo) (files : StoreMap) (rng : List Nat),
      List.Forall₂ (fun info r =>
        r.slotName = info.config.name ∧
        (info.diceCount ≤ 0 → r = inertResult info.config.name) ∧
        (0 < info.diceCount →
          r.diceCount = info.diceCount ∧
          ∃ bonus : List Int, r.rolls = baseRoll :: bonus ∧
            r.triggered = checkTarget (baseRoll :: bonus) info.config.target
              info.config.targetMode ∧
            (info.diceCount = 1 → bonus = []) ∧
            (0 < dieSize → bonus.length = (info.diceCount - 1).toNat ∧
              ∀ x ∈ bonus, 1 ≤ x ∧ x ≤ dieSize)))
        l (processGroupSlots dieSize baseRoll sid ctx now l files rng).1 ∧
      (0 < dieSize →
        (processGroupSlots dieSize baseRoll sid ctx now l files rng).2.2 =
          rng.drop (totalBonus l)) := by
  intro l
  induction l with
  | nil =>
    intro files rng
    refine ⟨List.Forall₂.nil, fun _ => ?_⟩
    simp [processGroupSlots, totalBonus]
  | cons info rest ih =>
    intro files rng
    by_cases hdc : info.diceCount ≤ 0
    · simp only [processGroupSlots, if_pos hdc]
      constructor
      · exact List.Forall₂.cons
          ⟨rfl, fun _ => rfl, fun h => absurd h (not_lt.mpr hdc)⟩ (ih _ _).1
      · intro hdie
        have hz : totalBonus (info :: rest) = totalBonus rest := by
          rw [totalBonus_cons, if_neg (by omega), Nat.zero_add]
        rw [hz]
        exact (ih _ _).2 hdie
    · have hdc0 : 0 < info.diceCount := by omega
      simp only [processGroupSlots, if_neg hdc]
      by_cases h1 : 1 < info.diceCount
      · simp only [if_pos h1]
        constructor
        · refine List.Forall₂.cons ⟨rfl, fun h => absurd h hdc, fun _ => ?_⟩ (ih _ _).1
          refine ⟨rfl, (rollDice (info.diceCount - 1) dieSize rng).1, rfl, rfl,
            fun he => absurd he (by omega), fun hdie => ⟨?_, ?_⟩⟩
          · rw [rollDice_length _ _ _ (by omega) hdie]
          · exact rollDice_mem_bounds _ _ _ hdie
        · intro hdie
          rw [(ih _ _).2 hdie, (rollDice_pos (info.diceCount - 1) dieSize rng
            (by omega) hdie).2, List.drop_drop, totalBonus_cons, if_pos h1,
            Nat.add_comm]
      · have hone : info.diceCount = 1 := by omega
        simp only [if_neg h1]
        constructor
        · refine List.Forall₂.cons ⟨rfl, fun h => absurd h hdc, fun _ => ?_⟩ (ih _ _).1
          exact ⟨rfl, [], rfl, rfl, fun _ => rfl,
            fun _ => ⟨by simp [hone], by intro x hx; exact absurd hx (List.not_mem_nil x)⟩⟩
        · intro hdie
          rw [(ih _ _).2 hdie, totalBonus_cons, if_neg h1]
          simp

/-- Every result the member loop emits carries the name of one of the
members. -/
theorem processGroupSlots_result_names (dieSize baseRoll : Int) (sid : String)
    (ctx : CheckContext) (now : Int) :
    ∀ (l : List SlotInfo) (files : StoreMap) (rng : List Nat),
      ∀ r ∈ (processGroupSlots dieSize baseRoll sid ctx now l files rng).1,
        ∃ i ∈ l, r.slotName = i.config.name := by
  intro l
  induction l with
  | nil =>
    intro files rng r hr
    simp [processGroupSlots] at hr
  | cons info rest ih =>
    intro files rng r hr
    by_cases hdc : info.diceCount ≤ 0
    · simp only [processGroupSlots, if_pos hdc] at hr
      rcases List.mem_cons.mp hr with rfl | hr2
      · exact ⟨info, List.mem_cons_self _ _, rfl⟩
      · obtain ⟨i, hi, hn⟩ := ih _ _ r hr2
        exact ⟨i, List.mem_cons_of_mem _ hi, hn⟩
    · simp only [processGroupSlots, if_neg hdc] at hr
      rcases List.mem_cons.mp hr with rfl | hr2
      · exact ⟨info, List.mem_cons_self _ _, rfl⟩
      · obtain ⟨i, hi, hn⟩ := ih _ _ r hr2
        exact ⟨i, List.mem_cons_of_mem _ hi, hn⟩

/-! ## Grouping lemmas -/

theorem addToGroups_die :
    ∀ (acc : List (Int × List SlotInfo)) (info : SlotInfo),
      (∀ p ∈ acc, ∀ i ∈ p.2, i.config.die = p.1) →
      ∀ p ∈ addToGroups acc info, ∀ i ∈ p.2, i.config.die = p.1 := by
  intro acc
  induction acc with
  | nil =>
    intro info _ p hp i hi
    simp only [addToGroups, List.mem_singleton] at hp
    subst hp
    simp only [List.mem_singleton] at hi
    subst hi
    rfl
  | cons q rest ih =>
    obtain ⟨d, g⟩ := q
    intro info hacc p hp i hi
    by_cases hd : d = info.config.die
    · simp only [addToGroups, if_pos hd] at hp
      rcases List.mem_cons.mp hp with rfl | hp2
      · rcases List.mem_append.mp hi with hig | hii
        · exact hacc (d, g) (List.mem_cons_self _ _) i hig
        · simp only [List.mem_singleton] at hii
          subst hii
          exact hd.symm
      · exact hacc p (List.mem_cons_of_mem _ hp2) i hi
    · simp only [addToGroups, if_neg hd] at hp
      rcases List.mem_cons.mp hp with rfl | hp2
      · exact hacc (d, g) (List.mem_cons_self _ _) i hi
      · exact ih info (fun p' hp' => hacc p' (List.mem_cons_of_mem _ hp')) p hp2 i hi

/-- Every member of a group has the group's die size as its key. -/
theorem groupByDie_die :
    ∀ (l : List SlotInfo) (acc : List (Int × List SlotInfo)),
      (∀ p ∈ acc, ∀ i ∈ p.2, i.config.die = p.1) →
      ∀ p ∈ l.foldl addToGroups acc, ∀ i ∈ p.2, i.config.die = p.1 := by
  intro l
  induction l with
  | nil => intro acc hacc; exact hacc
  | cons x rest ih =>
    intro acc hacc
    rw [List.foldl_cons]
    exact ih _ (addToGroups_die acc x hacc)

theorem addToGroups_keys :
    ∀ (acc : List (Int × List SlotInfo)) (info : SlotInfo),
      (addToGroups acc info).map Prod.fst =
        if info.config.die ∈ acc.map Prod.fst then acc.map Prod.fst
        else acc.map Prod.fst ++ [info.config.die] := by
  intro acc
  induction acc with
  | nil => intro info; simp [addToGroups]
  | cons q rest ih =>
    obtain ⟨d, g⟩ := q
    intro info
    by_cases hd : d = info.config.die
    · subst hd
      simp [addToGroups]
    · simp only [addToGroups, if_neg hd, List.map_cons, ih]
      by_cases hmem : info.config.die ∈ rest.map Prod.fst
      · rw [if_pos hmem, if_pos (by simp [List.mem_cons, hmem])]
      · rw [if_neg hmem, if_neg ?h]
        · simp
        · simp only [List.mem_cons]
          push_neg
          exact ⟨fun h => hd h.symm, hmem⟩

/-- The die-size keys of the grouping are distinct. -/
theorem groupByDie_keys_nodup :
    ∀ (l : List SlotInfo) (acc : List (Int × List SlotInfo)),
      (acc.map Prod.fst).Nodup → ((l.foldl addToGroups acc).map Prod.fst).Nodup := by
  intro l
  induction l with
  | nil => intro acc h; exact h
  | cons x rest ih =>
    intro acc h
    rw [List.foldl_cons]
    refine ih _ ?_
    rw [addToGroups_keys]
    by_cases hmem : x.config.die ∈ acc.map Prod.fst
    · rw [if_pos hmem]; exact h
    · rw [if_neg hmem]
      exact ((List.perm_append_singleton _ _).nodup_iff).mpr
        (List.nodup_cons.mpr ⟨hmem, h⟩)

theorem addToGroups_members_perm :
    ∀ (acc : List (Int × List SlotInfo)) (info : SlotInfo),
      List.Perm ((addToGroups acc info).map fun p => p.2).flatten
        (((acc.map fun p => p.2).flatten) ++ [info]) := by
  intro acc
  induction acc with
  | nil =>
    intro info
    simp [addToGroups]
  | cons q rest ih =>
    obtain ⟨d, g⟩ := q
    intro info
    by_cases hd : d = info.config.die
    · simp only [addToGroups, if_pos hd, List.map_cons, List.flatten_cons]
      rw [List.append_assoc, List.append_assoc]
      exact List.Perm.append_left g List.perm_append_comm
    · simp only [addToGroups, if_neg hd, List.map_cons, List.flatten_cons]
      rw [List.append_assoc]
      exact List.Perm.append_left g (ih info)

/-- The groups' members are exactly the active slots (as a multiset). -/
theorem groupByDie_members_perm :
    ∀ (l : List SlotInfo) (acc : List (Int × List SlotInfo)),
      List.Perm ((l.foldl addToGroups acc).map fun p => p.2).flatten
        (((acc.map fun p => p.2).flatten) ++ l) := by
  intro l
  induction l with
  | nil => intro acc; simp
  | cons x rest ih =>
    intro acc
    rw [List.foldl_cons]
    refine (ih (addToGroups acc x)).trans ?_
    refine ((addToGroups_members_perm acc x).append_right rest).trans ?_
    rw [List.append_assoc]
    exact List.Perm.refl _

/-! ## Pre-filter lemmas -/

theorem prefilter_results_inert (sid : String) (ctx : CheckContext) :
    ∀ (slots : List DiceSlotConfig) (files : StoreMap),
      ∀ r ∈ (prefilter sid ctx slots files).1, r.triggered = false := by
  intro slots
  induction slots with
  | nil => intro files r hr; simp [prefilter] at hr
  | cons cfg rest ih =>
    intro files r hr
    by_cases hc : cfg.cooldown = CooldownPolicy.perSession ∧
        hasCooldown files cfg.name sid = true
    · simp only [prefilter, if_pos hc] at hr
      rcases List.mem_cons.mp hr with rfl | hr2
      · rfl
      · exact ih _ r hr2
    · simp only [prefilter, if_neg hc] at hr
      exact ih _ r hr

theorem prefilter_active_configs (sid : String) (ctx : CheckContext) :
    ∀ (slots : List DiceSlotConfig) (files : StoreMap),
      List.Sublist ((prefilter sid ctx slots files).2.1.map fun i => i.config) slots := by
  intro slots
  induction slots with
  | nil => intro files; simp [prefilter]
  | cons cfg rest ih =>
    intro files
    by_cases hc : cfg.cooldown = CooldownPolicy.perSession ∧
        hasCooldown files cfg.name sid = true
    · simp only [prefilter, if_pos hc]
      exact List.Sublist.cons cfg (ih _)
    · simp only [prefilter, if_neg hc, List.map_cons]
      exact List.Sublist.cons₂ cfg (ih _)

theorem prefilter_active_dice (sid : String) (ctx : CheckContext) :
    ∀ (slots : List DiceSlotConfig) (files : StoreMap),
      ∀ info ∈ (prefilter sid ctx slots files).2.1,
        ∃ F : StoreMap, info.diceCount = (getDiceCount info.config sid ctx F).1.diceCount := by
  intro slots
  induction slots with
  | nil => intro files info hi; simp [prefilter] at hi
  | cons cfg rest ih =>
    intro files info hi
    by_cases hc : cfg.cooldown = CooldownPolicy.perSession ∧
        hasCooldown files cfg.name sid = true
    · simp only [prefilter, if_pos hc] at hi
      exact ih _ info hi
    · simp only [prefilter, if_neg hc] at hi
      rcases List.mem_cons.mp hi with rfl | hi2
      · exact ⟨files, rfl⟩
      · exact ih _ info hi2

theorem getDiceCount_single (cfg : DiceSlotConfig) (sid : String) (ctx : CheckContext)
    (F : StoreMap) (h : cfg.type = SlotType.single) :
    (getDiceCount cfg sid ctx F).1.diceCount = 1 := by
  simp [getDiceCount, h]

/-! ## Tracing results of the group fold -/

theorem processGroup_result_names (sid : String) (ctx : CheckContext) (now d : Int)
    (g : List SlotInfo) (files : StoreMap) (rng : List Nat) :
    ∀ r ∈ (processGroup sid ctx now d g files rng).1,
      ∃ i ∈ g, r.slotName = i.config.name := by
  intro r hr
  simp only [processGroup] at hr
  exact processGroupSlots_result_names d _ sid ctx now g _ _ r hr

theorem processGroups_result_names (sid : String) (ctx : CheckContext) (now : Int) :
    ∀ (gs : List (Int × List SlotInfo)) (files : StoreMap) (rng : List Nat),
      ∀ r ∈ (processGroups sid ctx now gs files rng).1,
        ∃ p ∈ gs, ∃ i ∈ p.2, r.slotName = i.config.name := by
  intro gs
  induction gs with
  | nil => intro files rng r hr; simp [processGroups] at hr
  | cons q rest ih =>
    intro files rng r hr
    simp only [processGroups] at hr
    rcases List.mem_append.mp hr with hrh | hrt
    · obtain ⟨i, hi, hn⟩ := processGroup_result_names sid ctx now q.1 q.2 files rng r hrh
      exact ⟨q, List.mem_cons_self _ _, i, hi, hn⟩
    · obtain ⟨p, hp, hrest⟩ := ih _ _ r hrt
      exact ⟨p, List.mem_cons_of_mem _ hp, hrest⟩

theorem forall2_imp_mem {α β : Type _} {R S : α → β → Prop} :
    ∀ {l₁ : List α} {l₂ : List β}, List.Forall₂ R l₁ l₂ →
      (∀ a ∈ l₁, ∀ b, R a b → S a b) → List.Forall₂ S l₁ l₂ := by
  intro l₁ l₂ h
  induction h with
  | nil => intro _; exact List.Forall₂.nil
  | cons hab hr ih =>
    intro hmem
    exact List.Forall₂.cons (hmem _ (List.mem_cons_self _ _) _ hab)
      (ih fun a ha b hr2 => hmem a (List.mem_cons_of_mem _ ha) b hr2)

theorem totalBonus_eq_zero :
    ∀ g : List SlotInfo, (∀ i ∈ g, ¬ 0 < i.diceCount) → totalBonus g = 0 := by
  intro g
  induction g with
  | nil => intro _; rfl
  | cons i rest ih =>
    intro h
    rw [totalBonus_cons, if_neg (by have := h i (List.mem_cons_self _ _); omega),
      Nat.zero_add]
    exact ih fun j hj => h j (List.mem_cons_of_mem _ hj)

/-! ## Mutual exclusivity inside one shared pool -/

/-- Two results of one member loop, naming single-die exact members with
different targets, can never both be triggered: a triggered one-die exact
member pins the shared base roll to its own target. -/
theorem processGroupSlots_exclusive (d b : Int) (sid : String) (ctx : CheckContext)
    (now : Int) (n₁ n₂ : String) (t₁ t₂ : Int) (ht : t₁ ≠ t₂)
    (g : List SlotInfo) (files : StoreMap) (rng : List Nat)
    (hP₁ : ∀ i ∈ g, i.config.name = n₁ →
      i.config.targetMode = TargetMode.exact ∧ i.diceCount = 1 ∧ i.config.target = t₁)
    (hP₂ : ∀ i ∈ g, i.config.name = n₂ →
      i.config.targetMode = TargetMode.exact ∧ i.diceCount = 1 ∧ i.config.target = t₂) :
    ∀ r₁ ∈ (processGroupSlots d b sid ctx now g files rng).1,
    ∀ r₂ ∈ (processGroupSlots d b sid ctx now g files rng).1,
      r₁.slotName = n₁ → r₂.slotName = n₂ →
      ¬ (r₁.triggered = true ∧ r₂.triggered = true) := by
  intro r₁ hr₁ r₂ hr₂ he₁ he₂ hboth
  have hspec := (processGroupSlots_spec d b sid ctx now g files rng).1
  obtain ⟨i₁, hi₁, hs₁⟩ := forall2_mem_right hspec r₁ hr₁
  obtain ⟨i₂, hi₂, hs₂⟩ := forall2_mem_right hspec r₂ hr₂
  obtain ⟨hm₁, hdc₁, htg₁⟩ := hP₁ i₁ hi₁ (by rw [← hs₁.1]; exact he₁)
  obtain ⟨hm₂, hdc₂, htg₂⟩ := hP₂ i₂ hi₂ (by rw [← hs₂.1]; exact he₂)
  obtain ⟨_, bonus₁, hrolls₁, htrig₁, hone₁, _⟩ := hs₁.2.2 (by omega)
  obtain ⟨_, bonus₂, hrolls₂, htrig₂, hone₂, _⟩ := hs₂.2.2 (by omega)
  rw [hone₁ hdc₁] at htrig₁
  rw [hone₂ hdc₂] at htrig₂
  rw [hm₁, htg₁, hboth.1] at htrig₁
  rw [hm₂, htg₂, hboth.2] at htrig₂
  have hb₁ : b = t₁ := by
    have h := htrig₁.symm
    simpa [checkTarget] using h
  have hb₂ : b = t₂ := by
    have h := htrig₂.symm
    simpa [checkTarget] using h
  exact ht (hb₁.symm.trans hb₂)

theorem processGroup_exclusive (sid : String) (ctx : CheckContext) (now d : Int)
    (g : List SlotInfo) (files : StoreMap) (rng : List Nat)
    (n₁ n₂ : String) (t₁ t₂ : Int) (ht : t₁ ≠ t₂)
    (hP₁ : ∀ i ∈ g, i.config.name = n₁ →
      i.config.targetMode = TargetMode.exact ∧ i.diceCount = 1 ∧ i.config.target = t₁)
    (hP₂ : ∀ i ∈ g, i.config.name = n₂ →
      i.config.targetMode = TargetMode.exact ∧ i.diceCount = 1 ∧ i.config.target = t₂) :
    ∀ r₁ ∈ (processGroup sid ctx now d g files rng).1,
    ∀ r₂ ∈ (processGroup sid ctx now d g files rng).1,
      r₁.slotName = n₁ → r₂.slotName = n₂ →
      ¬ (r₁.triggered = true ∧ r₂.triggered = true) := by
  intro r₁ hr₁ r₂ hr₂ he₁ he₂ hboth
  simp only [processGroup] at hr₁ hr₂
  exact processGroupSlots_exclusive d _ sid ctx now n₁ n₂ t₁ t₂ ht g _ _ hP₁ hP₂
    r₁ hr₁ r₂ hr₂ he₁ he₂ hboth

theorem processGroups_mutex (sid : String) (ctx : CheckContext) (now : Int)
    (n₁ n₂ : String) (t₁ t₂ : Int) (ht : t₁ ≠ t₂) :
    ∀ (gs : List (Int × List SlotInfo)) (files : StoreMap) (rng : List Nat),
      List.Pairwise (fun p q => ∀ n : String,
        (∃ i ∈ p.2, i.config.name = n) → (∃ i ∈ q.2, i.config.name = n) → False) gs →
      ∀ p ∈ gs,
        (∃ i ∈ p.2, i.config.name = n₁) →
        (∃ i ∈ p.2, i.config.name = n₂) →
        (∀ i ∈ p.2, i.config.name = n₁ →
          i.config.targetMode = TargetMode.exact ∧ i.diceCount = 1 ∧
          i.config.target = t₁) →
        (∀ i ∈ p.2, i.config.name = n₂ →
          i.config.targetMode = TargetMode.exact ∧ i.diceCount = 1 ∧
          i.config.target = t₂) →
      ∀ r₁ ∈ (processGroups sid ctx now gs files rng).1,
      ∀ r₂ ∈ (processGroups sid ctx now gs files rng).1,
        r₁.slotName = n₁ → r₂.slotName = n₂ →
        ¬ (r₁.triggered = true ∧ r₂.triggered = true) := by
  intro gs
  induction gs with
  | nil => intro files rng _ p hp; exact absurd hp (List.not_mem_nil p)
  | cons q rest ih =>
    obtain ⟨d, g⟩ := q
    intro files rng hpw p hp hn1 hn2 hP1 hP2 r₁ hr₁ r₂ hr₂ he₁ he₂ hboth
    have hpw' := List.pairwise_cons.mp hpw
    simp only [processGroups] at hr₁ hr₂
    rcases List.mem_cons.mp hp with rfl | hpr
    · rcases List.mem_append.mp hr₁ with hr₁h | hr₁t
      · rcases List.mem_append.mp hr₂ with hr₂h | hr₂t
        · exact processGroup_exclusive sid ctx now d g files rng n₁ n₂ t₁ t₂ ht
            hP1 hP2 r₁ hr₁h r₂ hr₂h he₁ he₂ hboth
        · obtain ⟨p', hp', i', hi', hni'⟩ :=
            processGroups_result_names sid ctx now rest _ _ r₂ hr₂t
          exact hpw'.1 p' hp' n₂ hn2 ⟨i', hi', by rw [← hni']; exact he₂⟩
      · obtain ⟨p', hp', i', hi', hni'⟩ :=
          processGroups_result_names sid ctx now rest _ _ r₁ hr₁t
        exact hpw'.1 p' hp' n₁ hn1 ⟨i', hi', by rw [← hni']; exact he₁⟩
    · rcases List.mem_append.mp hr₁ with hr₁h | hr₁t
      · obtain ⟨i, hi, hni⟩ :=
          processGroup_result_names sid ctx now d g files rng r₁ hr₁h
        exact hpw'.1 p hpr n₁ ⟨i, hi, by rw [← hni]; exact he₁⟩ hn1
      · rcases List.mem_append.mp hr₂ with hr₂h | hr₂t
        · obtain ⟨i, hi, hni⟩ :=
            processGroup_result_names sid ctx now d g files rng r₂ hr₂h
          exact hpw'.1 p hpr n₂ ⟨i, hi, by rw [← hni]; exact he₂⟩ hn2
        · exact ih _ _ hpw'.2 p hpr hn1 hn2 hP1 hP2 r₁ hr₁t r₂ hr₂t he₁ he₂ hboth

/-! ## C1 — one shared base roll per die-size group -/

/-- C1: checkAllSlots is the pre-filter followed by the per-group loop, and
for every die-size group (with a positive die size): if any member has a
positive dice count, exactly one base roll is drawn from the stream (the
whole invocation advances the stream by exactly `1 + Σ (diceCount - 1)`),
that base roll is a face of the group's die, every member with
`diceCount > 0` gets exactly `diceCount` rolls whose first element is the
shared base roll and all of whose elements are faces of the die, and every
member with `diceCount <= 0` gets the inert outcome; if no member has a
positive count, no randomness is consumed and every member is inert. -/
theorem c1_shared_base_roll :
    (∀ (ctx : CheckContext) (env : Env), env.slots.isEmpty = false →
      (checkAllSlots ctx env).1 =
        (prefilter (resolveSessionId env.fallbackSessionId ctx) ctx env.slots
          env.files).1 ++
        (processGroups (resolveSessionId env.fallbackSessionId ctx) ctx env.now
          (groupByDie (prefilter (resolveSessionId env.fallbackSessionId ctx) ctx
            env.slots env.files).2.1)
          (prefilter (resolveSessionId env.fallbackSessionId ctx) ctx env.slots
            env.files).2.2 env.rng).1) ∧
    (∀ (sid : String) (ctx : CheckContext) (now dieSize : Int) (g : List SlotInfo)
      (files : StoreMap) (rng : List Nat), 0 < dieSize →
      ((g.any fun s => 0 < s.diceCount) = true →
        (processGroup sid ctx now dieSize g files rng).2.2 =
          rng.drop (1 + totalBonus g) ∧
        (1 ≤ natRoll dieSize (rng.getD 0 0) ∧
          natRoll dieSize (rng.getD 0 0) ≤ dieSize) ∧
        List.Forall₂ (fun info r =>
          r.slotName = info.config.name ∧
          (info.diceCount ≤ 0 → r = inertResult info.config.name) ∧
          (0 < info.diceCount →
            r.diceCount = info.diceCount ∧
            r.rolls.length = info.diceCount.toNat ∧
            r.rolls.head? = some (natRoll dieSize (rng.getD 0 0)) ∧
            ∀ x ∈ r.rolls, 1 ≤ x ∧ x ≤ dieSize))
          g (processGroup sid ctx now dieSize g files rng).1) ∧
      ((g.any fun s => 0 < s.diceCount) = false →
        (processGroup sid ctx now dieSize g files rng).2.2 = rng ∧
        List.Forall₂ (fun info r => r = inertResult info.config.name) g
          (processGroup sid ctx now dieSize g files rng).1)) := by
  constructor
  · intro ctx env hne
    simp only [checkAllSlots, hne, Bool.false_eq_true, if_false]
  · intro sid ctx now dieSize g files rng hdie
    constructor
    · intro hany
      have hroll := rollDice_pos 1 dieSize rng (by omega) hdie
      have hb1 : (rollDice 1 dieSize rng).1 = [natRoll dieSize (rng.getD 0 0)] := by
        rw [hroll.1]
        have h : List.range (Int.toNat 1) = [0] := by decide
        rw [h]
        rfl
      have hpg : processGroup sid ctx now dieSize g files rng =
          processGroupSlots dieSize (natRoll dieSize (rng.getD 0 0)) sid ctx now g
            files (rng.drop 1) := by
        simp only [processGroup]
        rw [if_pos hany, hb1, hroll.2]
        simp
      refine ⟨?_, natRoll_bounds dieSize hdie (rng.getD 0 0), ?_⟩
      · rw [hpg,
          (processGroupSlots_spec dieSize (natRoll dieSize (rng.getD 0 0)) sid ctx
            now g files (rng.drop 1)).2 hdie,
          List.drop_drop, Nat.add_comm]
      · rw [hpg]
        refine List.Forall₂.imp ?_
          (processGroupSlots_spec dieSize (natRoll dieSize (rng.getD 0 0)) sid ctx
            now g files (rng.drop 1)).1
        intro info r hr
        refine ⟨hr.1, hr.2.1, fun h0 => ?_⟩
        obtain ⟨hdc, bonus, hrolls, _, _, hcond⟩ := hr.2.2 h0
        obtain ⟨hlen, hbnd⟩ := hcond hdie
        refine ⟨hdc, ?_, ?_, ?_⟩
        · rw [hrolls]
          simp only [List.length_cons, hlen]
          omega
        · rw [hrolls]
          rfl
        · intro x hx
          rw [hrolls] at hx
          rcases List.mem_cons.mp hx with rfl | hx2
          · exact natRoll_bounds dieSize hdie (rng.getD 0 0)
          · exact hbnd x hx2
    · intro hany
      have hanyall : ∀ i ∈ g, ¬ 0 < i.diceCount := by
        simpa [List.any_eq_false] using hany
      have hpg : processGroup sid ctx now dieSize g files rng =
          processGroupSlots dieSize 0 sid ctx now g files rng := by
        simp only [processGroup]
        rw [if_neg (by simp [hany])]
      constructor
      · rw [hpg, (processGroupSlots_spec dieSize 0 sid ctx now g files rng).2 hdie,
          totalBonus_eq_zero g hanyall]
        rfl
      · rw [hpg]
        refine forall2_imp_mem
          (processGroupSlots_spec dieSize 0 sid ctx now g files rng).1 ?_
        intro a ha b hr
        exact hr.2.1 (by have := hanyall a ha; omega)

/-- C1 witness: a d6 group with one 2-dice member and one inactive member on
the stream [3, 4] consumes the whole stream (one base draw, one bonus draw)
and the base face 3 % 6 + 1 = 4 is a legal d6 face. -/
theorem c1_shared_base_roll_witness :
    (0 : Int) < 6 ∧
    (processGroup "s" (ctxAt 0) 0 6 [poolA, poolB] emptyFiles [3, 4]).2.2 = [] ∧
    1 ≤ natRoll 6 3 ∧ natRoll 6 3 ≤ 6 := by
  have h := (c1_shared_base_roll.2 "s" (ctxAt 0) 0 6 [poolA, poolB] emptyFiles
    [3, 4] (by decide)).1 (by decide)
  refine ⟨by decide, ?_, h.2.1.1, h.2.1.2⟩
  rw [h.1]
  decide

/-! ## C2 — same-die exact singles never both trigger -/

/-- C2: in one checkAllSlots invocation, two registered single-kind slots on
the same die size with different exact targets never both report
`triggered = true`: any triggered result of such a slot pins the group's
shared base roll to that slot's target value, and the two targets differ. -/
theorem c2_shared_die_exact_mutex
    (env : Env) (ctx : CheckContext) (s₁ s₂ : DiceSlotConfig)
    (hnd : (env.slots.map fun c => c.name).Nodup)
    (h₁ : s₁ ∈ env.slots) (h₂ : s₂ ∈ env.slots)
    (hty₁ : s₁.type = SlotType.single) (hty₂ : s₂.type = SlotType.single)
    (hm₁ : s₁.targetMode = TargetMode.exact) (hm₂ : s₂.targetMode = TargetMode.exact)
    (hdie : s₁.die = s₂.die) (ht : s₁.target ≠ s₂.target) :
    ∀ r₁ ∈ (checkAllSlots ctx env).1, ∀ r₂ ∈ (checkAllSlots ctx env).1,
      r₁.slotName = s₁.name → r₂.slotName = s₂.name →
      ¬ (r₁.triggered = true ∧ r₂.triggered = true) := by
  intro r₁ hr₁ r₂ hr₂ he₁ he₂ hboth
  have hne : env.slots.isEmpty = false := by
    simpa [List.isEmpty_iff] using List.ne_nil_of_mem h₁
  simp only [checkAllSlots, hne, Bool.false_eq_true, if_false] at hr₁ hr₂
  set sid := resolveSessionId env.fallbackSessionId ctx with hsid
  set act := (prefilter sid ctx env.slots env.files).2.1 with hactdef
  have hr₁g : r₁ ∈ (processGroups sid ctx env.now (groupByDie act)
      (prefilter sid ctx env.slots env.files).2.2 env.rng).1 := by
    rcases List.mem_append.mp hr₁ with hpre | hg
    · have hfalse := prefilter_results_inert sid ctx env.slots env.files r₁ hpre
      rw [hboth.1] at hfalse
      exact absurd hfalse (by decide)
    · exact hg
  have hr₂g : r₂ ∈ (processGroups sid ctx env.now (groupByDie act)
      (prefilter sid ctx env.slots env.files).2.2 env.rng).1 := by
    rcases List.mem_append.mp hr₂ with hpre | hg
    · have hfalse := prefilter_results_inert sid ctx env.slots env.files r₂ hpre
      rw [hboth.2] at hfalse
      exact absurd hfalse (by decide)
    · exact hg
  obtain ⟨p₁, hp₁, i₁, hi₁, hni₁⟩ :=
    processGroups_result_names sid ctx env.now _ _ _ r₁ hr₁g
  obtain ⟨p₂, hp₂, i₂, hi₂, hni₂⟩ :=
    processGroups_result_names sid ctx env.now _ _ _ r₂ hr₂g
  have hmemact : ∀ p : Int × List SlotInfo, p ∈ groupByDie act →
      ∀ i ∈ p.2, i ∈ act := by
    intro p hp i hi
    have hperm := groupByDie_members_perm act []
    have hmem : i ∈ ((groupByDie act).map fun p => p.2).flatten :=
      List.mem_flatten.mpr ⟨p.2, List.mem_map_of_mem _ hp, hi⟩
    have := hperm.mem_iff.mp hmem
    simpa using this
  have hinj := List.inj_on_of_nodup_map hnd
  have hconf : ∀ p : Int × List SlotInfo, p ∈ groupByDie act →
      ∀ i ∈ p.2, i.config ∈ env.slots := by
    intro p hp i hi
    exact (prefilter_active_configs sid ctx env.slots env.files).subset
      (List.mem_map_of_mem _ (hmemact p hp i hi))
  have hcfg₁ : i₁.config = s₁ :=
    hinj (hconf p₁ hp₁ i₁ hi₁) h₁ (by rw [← hni₁]; exact he₁)
  have hcfg₂ : i₂.config = s₂ :=
    hinj (hconf p₂ hp₂ i₂ hi₂) h₂ (by rw [← hni₂]; exact he₂)
  have hdnil : ∀ p : Int × List SlotInfo, p ∈ ([] : List (Int × List SlotInfo)) →
      ∀ i ∈ p.2, i.config.die = p.1 := fun p hp => absurd hp (List.not_mem_nil p)
  have hdie₁ : i₁.config.die = p₁.1 := groupByDie_die act [] hdnil p₁ hp₁ i₁ hi₁
  have hdie₂ : i₂.config.die = p₂.1 := groupByDie_die act [] hdnil p₂ hp₂ i₂ hi₂
  have hkey : p₁.1 = p₂.1 := by rw [← hdie₁, ← hdie₂, hcfg₁, hcfg₂, hdie]
  have hknd := groupByDie_keys_nodup act [] (by simp)
  have hpeq : p₁ = p₂ := List.inj_on_of_nodup_map hknd hp₁ hp₂ hkey
  have hi₂' : i₂ ∈ p₁.2 := by rw [hpeq]; exact hi₂
  have hactnd : (act.map fun i => i.config.name).Nodup := by
    refine List.Nodup.sublist ?_ hnd
    have hsub := (prefilter_active_configs sid ctx env.slots env.files).map
      (fun c => c.name)
    simpa [List.map_map, Function.comp] using hsub
  have hflat : ((((groupByDie act).map fun p => p.2).flatten).map
      fun i => i.config.name).Nodup := by
    refine ((groupByDie_members_perm act []).map fun i => i.config.name).nodup_iff.mpr ?_
    simpa using hactnd
  have hpairwise : List.Pairwise (fun p q => ∀ n : String,
      (∃ i ∈ p.2, i.config.name = n) → (∃ i ∈ q.2, i.config.name = n) → False)
      (groupByDie act) := by
    rw [List.map_flatten, List.map_map] at hflat
    have hpd := (List.nodup_flatten.mp hflat).2
    rw [List.pairwise_map] at hpd
    refine hpd.imp ?_
    intro p q hdisj n hn1 hn2
    obtain ⟨i, hi, hin⟩ := hn1
    obtain ⟨j, hj, hjn⟩ := hn2
    exact hdisj (List.mem_map.mpr ⟨i, hi, hin⟩) (List.mem_map.mpr ⟨j, hj, hjn⟩)
  have hP1 : ∀ i ∈ p₁.2, i.config.name = s₁.name →
      i.config.targetMode = TargetMode.exact ∧ i.diceCount = 1 ∧
      i.config.target = s₁.target := by
    intro i hi hn
    have hic : i.config = s₁ := hinj (hconf p₁ hp₁ i hi) h₁ hn
    refine ⟨by rw [hic]; exact hm₁, ?_, by rw [hic]⟩
    obtain ⟨F, hF⟩ := prefilter_active_dice sid ctx env.slots env.files i
      (hmemact p₁ hp₁ i hi)
    rw [hF, getDiceCount_single i.config sid ctx F (by rw [hic]; exact hty₁)]
  have hP2 : ∀ i ∈ p₁.2, i.config.name = s₂.name →
      i.config.targetMode = TargetMode.exact ∧ i.diceCount = 1 ∧
      i.config.target = s₂.target := by
    intro i hi hn
    have hic : i.config = s₂ := hinj (hconf p₁ hp₁ i hi) h₂ hn
    refine ⟨by rw [hic]; exact hm₂, ?_, by rw [hic]⟩
    obtain ⟨F, hF⟩ := prefilter_active_dice sid ctx env.slots env.files i
      (hmemact p₁ hp₁ i hi)
    rw [hF, getDiceCount_single i.config sid ctx F (by rw [hic]; exact hty₂)]
  exact processGroups_mutex sid ctx env.now s₁.name s₂.name s₁.target s₂.target ht
    (groupByDie act) _ env.rng hpairwise p₁ hp₁
    ⟨i₁, hi₁, by rw [← hni₁]; exact he₁⟩ ⟨i₂, hi₂', by rw [← hni₂]; exact he₂⟩
    hP1 hP2 r₁ hr₁g r₂ hr₂g he₁ he₂ hboth

/-- C2 witness: two single-kind d20 slots with exact targets 20 and 2, random
stream forcing a natural 20 — the "a" result triggers, the "b" result does
not, and the theorem applies to rule out both triggering. -/
theorem c2_shared_die_exact_mutex_witness :
    ¬ (({ triggered := true, rolls := [20], best := 20, diceCount := 1,
          probability := 5, slotName := "a" } : DiceResult).triggered = true ∧
       ({ triggered := false, rolls := [20], best := 20, diceCount := 1,
          probability := 5, slotName := "b" } : DiceResult).triggered = true) := by
  have hres : (checkAllSlots { sessionId := some "s", transcript := none } envAB).1 =
      [{ triggered := true, rolls := [20], best := 20, diceCount := 1,
         probability := 5, slotName := "a" },
       { triggered := false, rolls := [20], best := 20, diceCount := 1,
         probability := 5, slotName := "b" }] := by
    simp [checkAllSlots, envAB, singleA, singleB, sampleAcc, prefilter, getDiceCount,
      hasCooldown, emptyFiles, resolveSessionId, groupByDie, addToGroups,
      processGroups, processGroup, processGroupSlots, rollDice, natRoll, checkTarget,
      bestOf, inertResult, markTriggered]
    norm_num [calculateProbability, jsRound]
  exact c2_shared_die_exact_mutex envAB { sessionId := some "s", transcript := none }
    singleA singleB (by decide) (by decide) (by decide) rfl rfl rfl rfl rfl
    (by decide)
    { triggered := true, rolls := [20], best := 20, diceCount := 1,
      probability := 5, slotName := "a" } (by rw [hres]; simp)
    { triggered := false, rolls := [20], best := 20, diceCount := 1,
      probability := 5, slotName := "b" } (by rw [hres]; simp)
    rfl rfl

/-! ## C3 machinery — tracking the post-trigger reset write -/

theorem loadState_markTriggered (files : StoreMap) (n s : String) (now : Int) :
    loadState (markTriggered files n s now) n s = loadState files n s := by
  unfold loadState
  rw [markTriggered_apply_noteq _ _ _ _ _ (getStateFile_ne_getMarkerFile n n s)]

/-- With no depth provider and no transcript, an accumulator can never owe
any dice: the resolved depth is 0 and the (possibly calibrated) baseline is
nonnegative. -/
theorem acc_no_signal_nonpos (cfg : DiceSlotConfig) (sid : String)
    (ctx : CheckContext) (files : StoreMap) (hprov : cfg.depthProvider = none)
    (htr : ctx.transcript = none) :
    (getAccumulatorDiceCount cfg sid ctx files).1.diceCount ≤ 0 := by
  have hd : resolveDepth cfg ctx = 0 := by simp [resolveDepth, hprov, htr]
  simp only [getAccumulatorDiceCount, hd]
  by_cases hs : (loadState files cfg.name sid).depth_at_last_trigger < 0
  · rw [if_pos hs]
    simp only [sub_self, max_self, Int.zero_fdiv]
    exact min_le_left 0 _
  · rw [if_neg hs]
    push_neg at hs
    have hmax : max 0 (0 - (loadState files cfg.name sid).depth_at_last_trigger) = 0 :=
      max_eq_left (by omega)
    simp only [hmax, Int.zero_fdiv]
    exact min_le_left 0 _

/-- Trace a triggered result back to its member: a triggered result comes
from a member with a positive dice count. -/
theorem processGroups_result_spec (sid : String) (ctx : CheckContext) (now : Int) :
    ∀ (gs : List (Int × List SlotInfo)) (files : StoreMap) (rng : List Nat),
      ∀ r ∈ (processGroups sid ctx now gs files rng).1,
        ∃ p ∈ gs, ∃ i ∈ p.2, r.slotName = i.config.name ∧
          (r.triggered = true → 0 < i.diceCount) := by
  intro gs
  induction gs with
  | nil => intro files rng r hr; simp [processGroups] at hr
  | cons q rest ih =>
    obtain ⟨d, g⟩ := q
    intro files rng r hr
    simp only [processGroups] at hr
    rcases List.mem_append.mp hr with hrh | hrt
    · simp only [processGroup] at hrh
      obtain ⟨i, hi, hs⟩ := forall2_mem_right
        (processGroupSlots_spec d _ sid ctx now g files _).1 r hrh
      refine ⟨(d, g), List.mem_cons_self _ _, i, hi, hs.1, fun htr => ?_⟩
      by_contra hdc
      push_neg at hdc
      rw [hs.2.1 hdc] at htr
      exact absurd htr (by simp [inertResult])
    · obtain ⟨p, hp, hrest⟩ := ih _ _ r hrt
      exact ⟨p, List.mem_cons_of_mem _ hp, hrest⟩

/-- If no result of the member loop for slot name `nm` is triggered, the loop
leaves nm's state file untouched. -/
theorem processGroupSlots_state_frame (dieSize baseRoll : Int) (sid : String)
    (ctx : CheckContext) (now : Int) (nm : String) :
    ∀ (l : List SlotInfo) (files : StoreMap) (rng : List Nat),
      (∀ r ∈ (processGroupSlots dieSize baseRoll sid ctx now l files rng).1,
        r.slotName = nm → r.triggered = false) →
      (processGroupSlots dieSize baseRoll sid ctx now l files rng).2.1
        (getStateFile nm sid) = files (getStateFile nm sid) := by
  intro l
  induction l with
  | nil => intro files rng _; rfl
  | cons info rest ih =>
    intro files rng hres
    by_cases hdc : info.diceCount ≤ 0
    · simp only [processGroupSlots, if_pos hdc] at hres ⊢
      exact ih _ _ fun r hr hn => hres r (List.mem_cons_of_mem _ hr) hn
    · simp only [processGroupSlots, if_neg hdc] at hres ⊢
      set chk := checkTarget (baseRoll ::
        (if 1 < info.diceCount then rollDice (info.diceCount - 1) dieSize rng
         else ([], rng)).1) info.config.target info.config.targetMode with hchk
      set F1 := if chk = true ∧ info.config.resetOnTrigger = true ∧
          info.config.type = SlotType.accumulator then
        resetState files info.config.name sid (groupResetDepth ctx) now
      else files with hF1
      rw [ih _ _ fun r hr hn => hres r (List.mem_cons_of_mem _ hr) hn]
      have hstep2 : (if chk = true ∧ info.config.cooldown = CooldownPolicy.perSession
          then markTriggered F1 info.config.name sid now else F1)
          (getStateFile nm sid) = F1 (getStateFile nm sid) := by
        by_cases hc : chk = true ∧ info.config.cooldown = CooldownPolicy.perSession
        · rw [if_pos hc]
          exact markTriggered_apply_noteq _ _ _ _ _
            (getStateFile_ne_getMarkerFile nm info.config.name sid)
        · rw [if_neg hc]
      rw [hstep2]
      by_cases hname : info.config.name = nm
      · have htf : chk = false := hres _ (List.mem_cons_self _ _) hname
        rw [hF1, if_neg (fun hc => by rw [htf] at hc; exact absurd hc.1 (by decide))]
      · rw [hF1]
        by_cases hc : chk = true ∧ info.config.resetOnTrigger = true ∧
            info.config.type = SlotType.accumulator
        · rw [if_pos hc]
          exact saveState_apply_noteq _ _ _ _ _
            (fun he => hname (getStateFile_inj he).symm)
        · rw [if_neg hc]

/-- If some result of the member loop for slot name `nm` is triggered, and
every member named `nm` is a resetting accumulator, the loop leaves nm's
state file holding the post-trigger reset value. -/
theorem processGroupSlots_reset_write (dieSize baseRoll : Int) (sid : String)
    (ctx : CheckContext) (now : Int) (nm : String) :
    ∀ (l : List SlotInfo) (files : StoreMap) (rng : List Nat),
      (∀ i ∈ l, i.config.name = nm →
        i.config.resetOnTrigger = true ∧ i.config.type = SlotType.accumulator) →
      (∃ r ∈ (processGroupSlots dieSize baseRoll sid ctx now l files rng).1,
        r.slotName = nm ∧ r.triggered = true) →
      (processGroupSlots dieSize baseRoll sid ctx now l files rng).2.1
        (getStateFile nm sid) =
        some (FileContent.state
          { depth_at_last_trigger := groupResetDepth ctx, last_reset := now }) := by
  intro l
  induction l with
  | nil =>
    intro files rng _ hex
    obtain ⟨r, hr, _⟩ := hex
    simp [processGroupSlots] at hr
  | cons info rest ih =>
    intro files rng hP hex
    obtain ⟨r, hr, hname, htrig⟩ := hex
    by_cases hdc : info.diceCount ≤ 0
    · simp only [processGroupSlots, if_pos hdc] at hr ⊢
      rcases List.mem_cons.mp hr with rfl | hr2
      · exact absurd htrig (by simp [inertResult])
      · exact ih _ _ (fun i hi => hP i (List.mem_cons_of_mem _ hi))
          ⟨r, hr2, hname, htrig⟩
    · simp only [processGroupSlots, if_neg hdc] at hr ⊢
      set chk := checkTarget (baseRoll ::
        (if 1 < info.diceCount then rollDice (info.diceCount - 1) dieSize rng
         else ([], rng)).1) info.config.target info.config.targetMode with hchk
      set F1 := if chk = true ∧ info.config.resetOnTrigger = true ∧
          info.config.type = SlotType.accumulator then
        resetState files info.config.name sid (groupResetDepth ctx) now
      else files with hF1
      set F2 := if chk = true ∧ info.config.cooldown = CooldownPolicy.perSession then
        markTriggered F1 info.config.name sid now
      else F1 with hF2
      set RNG2 := (if 1 < info.diceCount then rollDice (info.diceCount - 1) dieSize rng
        else ([], rng)).2 with hRNG2
      rcases List.mem_cons.mp hr with rfl | hr2
      · have hname' : info.config.name = nm := hname
        obtain ⟨hrt, hacc⟩ := hP info (List.mem_cons_self _ _) hname'
        have htrig' : chk = true := htrig
        have hF1v : F1 = resetState files info.config.name sid (groupResetDepth ctx)
            now := by rw [hF1, if_pos ⟨htrig', hrt, hacc⟩]
        by_cases hrest : ∃ r2 ∈ (processGroupSlots dieSize baseRoll sid ctx now rest
            F2 RNG2).1, r2.slotName = nm ∧ r2.triggered = true
        · exact ih _ _ (fun i hi => hP i (List.mem_cons_of_mem _ hi)) hrest
        · push_neg at hrest
          rw [processGroupSlots_state_frame dieSize baseRoll sid ctx now nm rest _ _
            (fun r2 hr2 hn2 => by
              cases htr2 : r2.triggered
              · rfl
              · exact absurd htr2 (hrest r2 hr2 hn2))]
          have hstep2 : F2 (getStateFile nm sid) = F1 (getStateFile nm sid) := by
            rw [hF2]
            by_cases hc : chk = true ∧ info.config.cooldown = CooldownPolicy.perSession
            · rw [if_pos hc]
              exact markTriggered_apply_noteq _ _ _ _ _
                (getStateFile_ne_getMarkerFile nm info.config.name sid)
            · rw [if_neg hc]
          rw [hstep2, hF1v, hname']
          unfold resetState saveState
          rw [Function.update_same]
      · exact ih _ _ (fun i hi => hP i (List.mem_cons_of_mem _ hi)) ⟨r, hr2, hname, htrig⟩

/-- Groups version of `processGroupSlots_state_frame`. -/
theorem processGroups_state_frame (sid : String) (ctx : CheckContext) (now : Int)
    (nm : String) :
    ∀ (gs : List (Int × List SlotInfo)) (files : StoreMap) (rng : List Nat),
      (∀ r ∈ (processGroups sid ctx now gs files rng).1,
        r.slotName = nm → r.triggered = false) →
      (processGroups sid ctx now gs files rng).2.1 (getStateFile nm sid) =
        files (getStateFile nm sid) := by
  intro gs
  induction gs with
  | nil => intro files rng _; rfl
  | cons q rest ih =>
    obtain ⟨d, g⟩ := q
    intro files rng hres
    simp only [processGroups] at hres ⊢
    rw [ih _ _ fun r hr hn => hres r (List.mem_append_right _ hr) hn]
    simp only [processGroup] at hres ⊢
    exact processGroupSlots_state_frame d _ sid ctx now nm g files _
      fun r hr hn => hres r (List.mem_append_left _ hr) hn

/-- Groups version of `processGroupSlots_reset_write`: after the whole group
fold, a slot name that triggered (and whose members are all resetting
accumulators) holds the reset value in its state file. -/
theorem processGroups_reset_write (sid : String) (ctx : CheckContext) (now : Int)
    (nm : String) :
    ∀ (gs : List (Int × List SlotInfo)) (files : StoreMap) (rng : List Nat),
      (∀ p ∈ gs, ∀ i ∈ p.2, i.config.name = nm →
        i.config.resetOnTrigger = true ∧ i.config.type = SlotType.accumulator) →
      (∃ r ∈ (processGroups sid ctx now gs files rng).1,
        r.slotName = nm ∧ r.triggered = true) →
      (processGroups sid ctx now gs files rng).2.1 (getStateFile nm sid) =
        some (FileContent.state
          { depth_at_last_trigger := groupResetDepth ctx, last_reset := now }) := by
  intro gs
  induction gs with
  | nil =>
    intro files rng _ hex
    obtain ⟨r, hr, _⟩ := hex
    simp [processGroups] at hr
  | cons q rest ih =>
    obtain ⟨d, g⟩ := q
    intro files rng hP hex
    obtain ⟨r, hr, hname, htrig⟩ := hex
    simp only [processGroups] at hr ⊢
    by_cases hrest : ∃ r2 ∈ (processGroups sid ctx now rest
        (processGroup sid ctx now d g files rng).2.1
        (processGroup sid ctx now d g files rng).2.2).1,
        r2.slotName = nm ∧ r2.triggered = true
    · exact ih _ _ (fun p hp => hP p (List.mem_cons_of_mem _ hp)) hrest
    · push_neg at hrest
      rw [processGroups_state_frame sid ctx now nm rest _ _
        (fun r2 hr2 hn2 => by
          cases htr2 : r2.triggered
          · rfl
          · exact absurd htr2 (hrest r2 hr2 hn2))]
      rcases List.mem_append.mp hr with hrh | hrt
      · simp only [processGroup] at hrh ⊢
        exact processGroupSlots_reset_write d _ sid ctx now nm g files _
          (hP (d, g) (List.mem_cons_self _ _)) ⟨r, hrh, hname, htrig⟩
      · exact absurd htrig (by
          have := hrest r hrt hname
          intro hc
          exact absurd (hc ▸ this) (by decide))

/-! ## C3 — the post-trigger reset writes the current depth -/

/-- C3: when checkSlot or a checkAllSlots pass triggers an accumulator slot
with `resetOnTrigger = true`, the persisted `depth_at_last_trigger` ends up
equal to the current depth when a depth signal (transcript) is available in
that call, and to the sentinel -1 when none is — the latter vacuously, since
without any depth signal an accumulator never accrues dice and so can never
trigger.  Registry-loaded configs carry no `depthProvider` (registerSlot
strips it), stated here as a hypothesis. -/
theorem c3_trigger_reset_depth :
    (∀ (env : Env) (ctx : CheckContext) (name : String) (cfg : DiceSlotConfig),
      (∀ c ∈ env.slots, c.depthProvider = none) →
      getSlot env.slots name = some cfg →
      cfg.type = SlotType.accumulator →
      cfg.resetOnTrigger = true →
      (checkSlot name ctx env).1.triggered = true →
      (loadState (checkSlot name ctx env).2.files name
        (resolveSessionId env.fallbackSessionId ctx)).depth_at_last_trigger =
        (match ctx.transcript with
         | some t => t.exchanges
         | none => -1)) ∧
    (∀ (env : Env) (ctx : CheckContext) (s : DiceSlotConfig),
      (∀ c ∈ env.slots, c.depthProvider = none) →
      (env.slots.map fun c => c.name).Nodup →
      s ∈ env.slots →
      s.type = SlotType.accumulator →
      s.resetOnTrigger = true →
      ∀ r ∈ (checkAllSlots ctx env).1, r.slotName = s.name → r.triggered = true →
      (loadState (checkAllSlots ctx env).2.files s.name
        (resolveSessionId env.fallbackSessionId ctx)).depth_at_last_trigger =
        (match ctx.transcript with
         | some t => t.exchanges
         | none => -1)) := by
  constructor
  · intro env ctx name cfg hnp hfind hacc hrt htrig
    have hprov : cfg.depthProvider = none :=
      hnp cfg (List.mem_of_find?_eq_some hfind)
    simp only [checkSlot, hfind] at htrig ⊢
    set sid := resolveSessionId env.fallbackSessionId ctx with hsid
    by_cases hcool : cfg.cooldown = CooldownPolicy.perSession ∧
        hasCooldown env.files name sid = true
    · rw [if_pos hcool] at htrig
      exact absurd htrig (by simp [inertResult])
    · rw [if_neg hcool] at htrig ⊢
      by_cases hdc : (getDiceCount cfg sid ctx env.files).1.diceCount ≤ 0
      · rw [if_pos hdc] at htrig
        exact absurd htrig (by simp [inertResult])
      · rw [if_neg hdc] at htrig ⊢
        set chk := checkTarget
          (rollDice (getDiceCount cfg sid ctx env.files).1.diceCount cfg.die
            env.rng).1 cfg.target cfg.targetMode with hchk
        have htrig' : chk = true := htrig
        rcases htr : ctx.transcript with _ | t
        · exfalso
          apply hdc
          have heq : getDiceCount cfg sid ctx env.files =
              getAccumulatorDiceCount cfg sid ctx env.files := by
            simp [getDiceCount, hacc]
          rw [heq]
          exact acc_no_signal_nonpos cfg sid ctx env.files hprov htr
        · have hcR : chk = true ∧ cfg.resetOnTrigger = true ∧
              cfg.type = SlotType.accumulator := ⟨htrig', hrt, hacc⟩
          rw [if_pos hcR]
          have hload : loadState (resetState (getDiceCount cfg sid ctx env.files).2
              name sid (checkSlotResetDepth cfg ctx) env.now) name sid =
              { depth_at_last_trigger := checkSlotResetDepth cfg ctx,
                last_reset := env.now } := loadState_saveState_self _ _ _ _
          by_cases hmk : chk = true ∧ cfg.cooldown = CooldownPolicy.perSession
          · rw [if_pos hmk]
            dsimp only
            rw [loadState_markTriggered, hload]
            simp [checkSlotResetDepth, hprov, htr]
          · rw [if_neg hmk]
            dsimp only
            rw [hload]
            simp [checkSlotResetDepth, hprov, htr]
  · intro env ctx s hnp hnd hs hacc hrt r hr hname htrig
    have hne : env.slots.isEmpty = false := by
      simpa [List.isEmpty_iff] using List.ne_nil_of_mem hs
    simp only [checkAllSlots, hne, Bool.false_eq_true, if_false] at hr ⊢
    set sid := resolveSessionId env.fallbackSessionId ctx with hsid
    set act := (prefilter sid ctx env.slots env.files).2.1 with hactdef
    have hrg : r ∈ (processGroups sid ctx env.now (groupByDie act)
        (prefilter sid ctx env.slots env.files).2.2 env.rng).1 := by
      rcases List.mem_append.mp hr with hpre | hg
      · have hfalse := prefilter_results_inert sid ctx env.slots env.files r hpre
        rw [htrig] at hfalse
        exact absurd hfalse (by decide)
      · exact hg
    have hmemact : ∀ p : Int × List SlotInfo, p ∈ groupByDie act →
        ∀ i ∈ p.2, i ∈ act := by
      intro p hp i hi
      have hperm := groupByDie_members_perm act []
      have hmem : i ∈ ((groupByDie act).map fun p => p.2).flatten :=
        List.mem_flatten.mpr ⟨p.2, List.mem_map_of_mem _ hp, hi⟩
      have := hperm.mem_iff.mp hmem
      simpa using this
    have hconf : ∀ p : Int × List SlotInfo, p ∈ groupByDie act →
        ∀ i ∈ p.2, i.config ∈ env.slots := by
      intro p hp i hi
      exact (prefilter_active_configs sid ctx env.slots env.files).subset
        (List.mem_map_of_mem _ (hmemact p hp i hi))
    have hinj := List.inj_on_of_nodup_map hnd
    obtain ⟨p, hp, i, hi, hni, hdcpos⟩ :=
      processGroups_result_spec sid ctx env.now _ _ _ r hrg
    have hcfg : i.config = s :=
      hinj (hconf p hp i hi) hs (by rw [← hni]; exact hname)
    rcases htr : ctx.transcript with _ | t
    · exfalso
      obtain ⟨F, hF⟩ := prefilter_active_dice sid ctx env.slots env.files i
        (hmemact p hp i hi)
      have h0 := hdcpos htrig
      rw [hF] at h0
      have hat : i.config.type = SlotType.accumulator := by rw [hcfg]; exact hacc
      have heq : getDiceCount i.config sid ctx F =
          getAccumulatorDiceCount i.config sid ctx F := by
        simp [getDiceCount, hat]
      rw [heq] at h0
      have := acc_no_signal_nonpos i.config sid ctx F
        (by rw [hcfg]; exact hnp s hs) htr
      omega
    · have hP : ∀ p2 ∈ groupByDie act, ∀ i2 ∈ p2.2, i2.config.name = s.name →
          i2.config.resetOnTrigger = true ∧
          i2.config.type = SlotType.accumulator := by
        intro p2 hp2 i2 hi2 hn2
        have h2 : i2.config = s := hinj (hconf p2 hp2 i2 hi2) hs hn2
        rw [h2]
        exact ⟨hrt, hacc⟩
      have hw := processGroups_reset_write sid ctx env.now s.name (groupByDie act)
        (prefilter sid ctx env.slots env.files).2.2 env.rng hP ⟨r, hrg, hname, htrig⟩
      simp only [loadState, hw]
      simp [groupResetDepth, htr]

/-- C3 witness: a registry-loaded accumulator (d2, target 1, mode gte, rate 1)
at depth 5 with a fresh store rolls three dice, triggers, and the persisted
baseline after the call equals the current depth 5. -/
theorem c3_trigger_reset_depth_witness :
    (checkSlot "acc" (ctxAt 5) envW).1.triggered = true ∧
    (loadState (checkSlot "acc" (ctxAt 5) envW).2.files "acc"
      (resolveSessionId envW.fallbackSessionId (ctxAt 5))).depth_at_last_trigger
      = 5 := by
  have htrig : (checkSlot "acc" (ctxAt 5) envW).1.triggered = true := by decide
  refine ⟨htrig, ?_⟩
  have h := c3_trigger_reset_depth.1 envW (ctxAt 5) "acc" accW
    (by decide) (by decide) rfl rfl htrig
  exact h.trans (by decide)

/-! ## C5 — session isolation and the flat key scheme -/

/-- C5: the state-file key `slotName ++ "-" ++ sessionId ++ ".json"` is not
injective in the (slot, session) pair: slot "a" under session "b-c" and slot
"a-b" under the distinct session "c" share one file, so writing state in one
session is observed in the other — per-session isolation fails. -/
theorem c5_isolation_violated :
    ("b-c" : String) ≠ "c" ∧
    getStateFile "a" "b-c" = getStateFile "a-b" "c" ∧
    loadState (resetState emptyFiles "a" "b-c" 5 0) "a-b" "c" ≠
      loadState emptyFiles "a-b" "c" := by
  refine ⟨by decide, by decide, by decide⟩

end CcDice
